import Mathlib

/-!
Shallow embedding of the LHDC A2DP source-encoder core
(`stack/a2dp/a2dp_vendor_lhdc_encoder.cc` and the second encoder variant of
the repository), covering the frame-pacing accumulator
(`a2dp_lhdc_get_num_frame_iteration`), the packet assembler / fragmenter
(`a2dp_lhdc_encode_frames`, both variants) and the per-packet header
tagging.  Machine integers are modelled as `Nat` with explicit reduction
modulo `2^32` / `2^16` / `2^8` exactly where the C code truncates.
-/

set_option maxRecDepth 40000

/-- 2^8, the modulus of a `uint8_t`. -/
def U8 : Nat := 2 ^ 8

/-- 2^16, the modulus of a `uint16_t` (the type of `BT_HDR::layer_specific`). -/
def U16 : Nat := 2 ^ 16

/-- 2^32, the modulus of a `uint32_t`. -/
def U32 : Nat := 2 ^ 32

/-- 2^64, the modulus of a `uint64_t`. -/
def U64 : Nat := 2 ^ 64

/-- Length of the LHDC media payload header (`a2dp_vendor_lhdc_constants.h`). -/
def A2DP_LHDC_MPL_HDR_LEN : Nat := 1

/-- Fragmentation flag of the LHDC media payload header byte. -/
def A2DP_LHDC_HDR_F_MSK : Nat := 0x80

/-- Start-of-batch flag of the LHDC media payload header byte. -/
def A2DP_LHDC_HDR_S_MSK : Nat := 0x40

/-- End-of-batch (last) flag of the LHDC media payload header byte. -/
def A2DP_LHDC_HDR_L_MSK : Nat := 0x20

/-- Frame-count field mask of the LHDC media payload header byte. -/
def A2DP_LHDC_HDR_NUM_MSK : Nat := 0x0F

/-- Encoder tick interval in milliseconds (both encoder variants). -/
def A2DP_LHDC_ENCODER_INTERVAL_MS : Nat := 20

/-- Samples per codec frame; `LHDCBT_ENC_BLOCK_SIZE` comes from the external
codec header `lhdcBT.h`.  Its value, 512, is fixed by the repository itself:
`a2dp_vendor_lhdc_encoder.cc` defines the matching
`A2DP_LHDC_MEDIA_BYTES_PER_FRAME 512` and the second encoder variant uses the
literal `lhdc_frame_size = 512`. -/
def LHDCBT_ENC_BLOCK_SIZE : Nat := 512

/-- The per-session feeding state `tA2DP_LHDC_FEEDING_STATE`:
`counter` and `bytes_per_tick` are `uint32_t`, `last_frame_us` is `uint64_t`. -/
structure FeedingState where
  counter : Nat
  bytes_per_tick : Nat
  last_frame_us : Nat
deriving Repr, DecidableEq

/-- Result of one pacing computation: the updated feeding state, the two out
parameters (`num_of_frames` is a `uint8_t`, `num_of_iterations` is the
constant 1) and the internal `uint32_t` local `result` before the 8-bit
truncation. -/
structure FrameIter where
  state : FeedingState
  num_of_frames : Nat
  num_of_iterations : Nat
  result : Nat
deriving Repr, DecidableEq

/-- `uint64_t` subtraction `a - b` (two's complement wraparound). -/
def u64sub (a b : Nat) : Nat := (a + U64 - b % U64) % U64

/-- The local `us_this_tick` of `a2dp_lhdc_get_num_frame_iteration`: the
nominal 20 ms on the first call, otherwise the `uint64_t` timestamp
difference truncated on assignment to the `uint32_t` local. -/
def lhdc_us_this_tick (st : FeedingState) (timestamp_us : Nat) : Nat :=
  if st.last_frame_us ≠ 0 then u64sub timestamp_us st.last_frame_us % U32
  else A2DP_LHDC_ENCODER_INTERVAL_MS * 1000

/-- The feeding counter right after the budget addition
`counter += bytes_per_tick * us_this_tick / (interval_ms * 1000)`, all in
`uint32_t` arithmetic. -/
def lhdc_counter1 (st : FeedingState) (timestamp_us : Nat) : Nat :=
  (st.counter + st.bytes_per_tick * lhdc_us_this_tick st timestamp_us % U32
     / (A2DP_LHDC_ENCODER_INTERVAL_MS * 1000)) % U32

/-- Embedding of `a2dp_lhdc_get_num_frame_iteration` (identical in both
encoder variants).  `pcm_bytes_per_frame` is the caller-side constant
`A2DP_LHDC_MEDIA_BYTES_PER_FRAME * channel_count * bits_per_sample / 8`.
`result = counter / pcm_bytes_per_frame` is a `uint32_t`; the out parameter
`num_of_frames` truncates it to 8 bits; the counter is reduced by
`result * pcm_bytes_per_frame`. -/
def a2dp_lhdc_get_num_frame_iteration (pcm_bytes_per_frame : Nat)
    (st : FeedingState) (timestamp_us : Nat) : FrameIter :=
  { state := { counter := lhdc_counter1 st timestamp_us
                 - lhdc_counter1 st timestamp_us / pcm_bytes_per_frame * pcm_bytes_per_frame,
               bytes_per_tick := st.bytes_per_tick,
               last_frame_us := timestamp_us % U64 }
    num_of_frames := lhdc_counter1 st timestamp_us / pcm_bytes_per_frame % U8
    num_of_iterations := 1
    result := lhdc_counter1 st timestamp_us / pcm_bytes_per_frame }

/-- Run the pacer over a list of tick timestamps, collecting the
`num_of_frames` outputs in order. -/
def runPacing (pcm_bytes_per_frame : Nat) :
    FeedingState → List Nat → FeedingState × List Nat
  | st, [] => (st, [])
  | st, t :: ts =>
    let it := a2dp_lhdc_get_num_frame_iteration pcm_bytes_per_frame st t
    let rest := runPacing pcm_bytes_per_frame it.state ts
    (rest.1, it.num_of_frames :: rest.2)

/-- Modelled from the spec: the claimed per-tick PCM byte budget
`bytes_per_tick * elapsed_us_i / interval_us`, with the elapsed time of the
first call after a reset taken as the nominal 20 ms interval (spec section
4.1 step 2).  This is the specification-side quantity of the conservation
claim, computed with unbounded integers. -/
def specBudgets (bytes_per_tick : Nat) : Nat → List Nat → List Nat
  | _, [] => []
  | lastUs, t :: ts =>
    let elapsed := if lastUs = 0 then A2DP_LHDC_ENCODER_INTERVAL_MS * 1000 else t - lastUs
    bytes_per_tick * elapsed / (A2DP_LHDC_ENCODER_INTERVAL_MS * 1000) ::
      specBudgets bytes_per_tick t ts

/-- Decidable well-behavedness of a sequence of ticks: timestamps are
monotone and below 2^64, each elapsed interval fits a `uint32_t`, the
byte-budget product and the updated counter fit a `uint32_t`, and the
computed frame count fits the 8-bit out parameter.  Under these conditions
the C arithmetic coincides with the exact arithmetic of the spec. -/
def pacingOk (pcm_bytes_per_frame : Nat) : FeedingState → List Nat → Bool
  | _, [] => true
  | st, t :: ts =>
    let us := if st.last_frame_us = 0 then A2DP_LHDC_ENCODER_INTERVAL_MS * 1000
              else t - st.last_frame_us
    let it := a2dp_lhdc_get_num_frame_iteration pcm_bytes_per_frame st t
    decide (st.last_frame_us ≤ t) && decide (t < U64) && decide (us < U32) &&
      decide (st.bytes_per_tick * us < U32) &&
      decide (st.counter + st.bytes_per_tick * us / (A2DP_LHDC_ENCODER_INTERVAL_MS * 1000) < U32) &&
      decide (it.result < U8) &&
      pacingOk pcm_bytes_per_frame it.state ts

/-- Packet-assembler state of `a2dp_lhdc_encode_frames` (first encoder
variant): `opn` is the payload accumulated in the currently open `p_buf`
(`[]` when `p_buf == NULL`), `closed` are the payloads already pushed to
`p_btBufs`, in order. -/
structure AsmState where
  opn : List Nat
  closed : List (List Nat)
deriving Repr, DecidableEq

/-- The inner `while (out_len > 0)` copy loop of `a2dp_lhdc_encode_frames`:
place one encoded chunk into packets of capacity `max` (the local
`max_mtu_len = TxAaMtuSize - A2DP_LHDC_MPL_HDR_LEN`).  Each pass copies
`bytes = min(out_len, space)` bytes into the open packet and closes it once
`len >= max_mtu_len`.  The fuel argument only serves termination; any
`fuel ≥ chunk.length` is enough when `0 < max` (each pass copies at least
one byte). -/
def placeChunk (max : Nat) : Nat → List Nat → AsmState → AsmState
  | _, [], st => st
  | 0, _ :: _, st => st
  | fuel + 1, c :: cs, st =>
    let space := max - st.opn.length
    let bytes := min (c :: cs).length space
    let opn' := st.opn ++ (c :: cs).take bytes
    let rest := (c :: cs).drop bytes
    if max ≤ opn'.length then
      placeChunk max fuel rest ⟨[], st.closed ++ [opn']⟩
    else
      placeChunk max fuel rest ⟨opn', st.closed⟩

/-- The encoded chunks the tick's main loop actually consumes: one chunk per
successful PCM read (a failed read aborts the loop), at most `n` frames,
reads numbered from `idx`.  A chunk is the byte output of one
`lhdc_encode_func` call (empty when the call yields no output). -/
def consumedChunks (reads : Nat → Option (List Nat)) : Nat → Nat → List (List Nat)
  | 0, _ => []
  | n + 1, idx =>
    match reads idx with
    | none => []
    | some c => c :: consumedChunks reads n (idx + 1)

/-- Result of the main `while (nb_frame)` loop of `a2dp_lhdc_encode_frames`:
final assembler state, the underflow restore added to the feeding counter,
and the number of frames successfully read and encoded. -/
structure LoopAOut where
  asm : AsmState
  counterAdd : Nat
  consumed : Nat
deriving Repr, DecidableEq

/-- The main `while (nb_frame)` loop of `a2dp_lhdc_encode_frames` (first
variant): read one PCM block, encode it, place the output; on a failed read
add `nb_frame * pcm_bytes_per_frame` back to the feeding counter and break.
`reads idx = none` models `a2dp_lhdc_read_feeding` returning false;
`reads idx = some chunk` models a successful read whose `lhdc_encode_func`
call produces `chunk` (`out_len = chunk.length`). -/
def frameLoopA (max bpf : Nat) (reads : Nat → Option (List Nat)) :
    Nat → Nat → AsmState → LoopAOut
  | 0, _, st => ⟨st, 0, 0⟩
  | n + 1, idx, st =>
    match reads idx with
    | none => ⟨st, (n + 1) * bpf, 0⟩
    | some chunk =>
      let st' := placeChunk max (chunk.length + 1) chunk st
      let r := frameLoopA max bpf reads n (idx + 1) st'
      ⟨r.asm, r.counterAdd, r.consumed + 1⟩

/-- An emitted packet of the first encoder variant: payload bytes, the
`uint16_t` `layer_specific` header word written at close time, and the
`uint32_t` media timestamp written ahead of the payload. -/
structure PacketA where
  payload : List Nat
  layer_specific : Nat
  timestamp : Nat
deriving Repr, DecidableEq

/-- Header word of the single-packet case (`bt_buf_num == 1`):
`layer_specific = buf_seq++; <<= 8; |= (latency | (nb_frame_org << A2DP_LHDC_HDR_NUM_SHIFT))`,
every store truncating to `uint16_t`.  `numShift` is the external constant
`A2DP_LHDC_HDR_NUM_SHIFT` of `lhdcBT.h`, kept symbolic. -/
def tagSingleA (latency numShift nbFrameOrg seqv : Nat) : Nat :=
  ((seqv % U16 * 256) % U16 |||
     (latency ||| nbFrameOrg <<< numShift)) % U16

/-- Header word of packet `i` of `n` in the fragmented case
(`bt_buf_num > 1`): all packets carry `A2DP_LHDC_HDR_F_MSK | latency`, the
first additionally `A2DP_LHDC_HDR_S_MSK` and the frame count, the last
additionally `A2DP_LHDC_HDR_L_MSK`. -/
def tagMultiA (latency numShift nbFrameOrg n i seqv : Nat) : Nat :=
  let ls1 := (seqv % U16 * 256) % U16
  let ls2 := (ls1 ||| (A2DP_LHDC_HDR_F_MSK ||| latency)) % U16
  if i = 0 then
    (ls2 ||| (A2DP_LHDC_HDR_S_MSK ||| nbFrameOrg <<< numShift)) % U16
  else if i = n - 1 then
    (ls2 ||| A2DP_LHDC_HDR_L_MSK) % U16
  else
    ls2

/-- The emission `for` loop of the fragmented case: tag each closed payload
in order, assigning consecutive `buf_seq` values (a `uint32_t` counter). -/
def tagLoopA (latency numShift nbFrameOrg n ts : Nat) :
    Nat → Nat → List (List Nat) → List PacketA
  | _, _, [] => []
  | i, seqv, pl :: pls =>
    ⟨pl, tagMultiA latency numShift nbFrameOrg n i (seqv % U32), ts % U32⟩ ::
      tagLoopA latency numShift nbFrameOrg n ts (i + 1) (seqv + 1) pls

/-- Result of one `a2dp_lhdc_encode_frames` call (first variant). -/
structure TickAOut where
  packets : List PacketA
  counterAdd : Nat
  consumed : Nat
  buf_seq : Nat
  timestamp : Nat
deriving Repr, DecidableEq

/-- Embedding of `a2dp_lhdc_encode_frames` of
`stack/a2dp/a2dp_vendor_lhdc_encoder.cc`: run the frame loop, close the
still-open packet if it has bytes, then tag and enqueue every packet —
the single-packet case without the fragmentation flag, the multi-packet
case through the emission loop.  The enqueue result is ignored by this
variant, so every tagged packet is handed to the sink.  Afterwards the
session timestamp advances by `nb_frame_org * LHDCBT_ENC_BLOCK_SIZE`
(`uint32_t`).  `tickPayloadsA` is the payload sequence pushed to `p_btBufs`:
the packets closed by the loop plus the final close of a non-empty open
packet. -/
def tickPayloadsA (max bpf : Nat) (reads : Nat → Option (List Nat))
    (nbFrame : Nat) : List (List Nat) :=
  let lo := frameLoopA max bpf reads nbFrame 0 ⟨[], []⟩
  lo.asm.closed ++ (if lo.asm.opn = [] then [] else [lo.asm.opn])

/-- Embedding of the tail of `a2dp_lhdc_encode_frames`: tag every payload of
`tickPayloadsA` and hand it to the sink (this variant ignores the enqueue
result), then advance `buf_seq` and the session timestamp. -/
def a2dp_lhdc_encode_frames (max bpf latency numShift : Nat)
    (reads : Nat → Option (List Nat)) (nbFrame : Nat)
    (timestamp bufSeq : Nat) : TickAOut :=
  let lo := frameLoopA max bpf reads nbFrame 0 ⟨[], []⟩
  let payloads := tickPayloadsA max bpf reads nbFrame
  let n := payloads.length
  let packets :=
    if n = 1 then
      payloads.map (fun pl =>
        ⟨pl, tagSingleA latency numShift nbFrame (bufSeq % U32), timestamp % U32⟩)
    else
      tagLoopA latency numShift nbFrame n timestamp 0 bufSeq payloads
  { packets := packets
    counterAdd := lo.counterAdd
    consumed := lo.consumed
    buf_seq := (bufSeq + n) % U32
    timestamp := (timestamp + nbFrame * LHDCBT_ENC_BLOCK_SIZE) % U32 }

/-- The byte stream held by an assembler state: closed payloads then the
open packet, in order. -/
def joined (st : AsmState) : List Nat := st.closed.join ++ st.opn

/-- The sequence byte of an emitted packet: high byte of the `uint16_t`
`layer_specific` word. -/
def seqFieldA (p : PacketA) : Nat := p.layer_specific >>> 8

/-- One tick's inputs for a session of the first encoder variant. -/
structure TickInA where
  nbFrame : Nat
  latency : Nat
  reads : Nat → Option (List Nat)

/-- A session of the first encoder variant: fold `a2dp_lhdc_encode_frames`
over a list of ticks, threading the session timestamp and `buf_seq`, and
collect every packet handed to the sink in emission order. -/
def sessionA (max bpf numShift : Nat) : Nat → Nat → List TickInA → List PacketA
  | _, _, [] => []
  | ts, seqv, tk :: tks =>
    let out := a2dp_lhdc_encode_frames max bpf tk.latency numShift tk.reads tk.nbFrame ts seqv
    out.packets ++ sessionA max bpf numShift out.timestamp out.buf_seq tks

/-- The expected sequence-byte stream: `n` consecutive values starting at
`s`, reduced modulo 256. -/
def seqList (s : Nat) : Nat → List Nat
  | 0 => []
  | n + 1 => s % 256 :: seqList (s + 1) n

/-- Outcome of one `lhdc_encode_func` call in the second encoder variant
(five-argument call shape): an error result, or the bytes written into the
packet plus the `out_frames` count reported by the codec. -/
inductive EncEvt where
  | err : EncEvt
  | ok : List Nat → Nat → EncEvt
deriving Repr, DecidableEq

/-- A packet handed to the enqueue callback by the second encoder variant:
payload, `layer_specific` (the accumulated frames-in-packet count), the
`uint32_t` media timestamp written ahead of the payload, and the
`done_nb_frame` argument of the enqueue call. -/
structure PacketB where
  payload : List Nat
  frames : Nat
  timestamp : Nat
  doneNb : Nat
deriving Repr, DecidableEq

/-- Program state of the second variant's `a2dp_lhdc_encode_frames`:
the open `p_buf` (payload and its `layer_specific` frame counter), the
locals `nb_frame` and `remain_nb_frame`, the number of PCM reads performed,
the underflow restore added to the feeding counter, the dropped-packet
statistic delta, the session timestamp, the packets handed to the sink in
order, the number of enqueue calls made, and whether the function returned
through a drop path (invalid handle or encode error). -/
structure StB where
  payload : List Nat
  lsFrames : Nat
  nbFrame : Nat
  remainNbFrame : Nat
  readIdx : Nat
  counterAdd : Nat
  droppedAdd : Nat
  timestamp : Nat
  emitted : List PacketB
  pktIdx : Nat
  dropped : Bool
deriving Repr, DecidableEq

/-- The inner `do { ... } while ((written == 0) && nb_frame)` loop of the
second variant: read a PCM block (`ev readIdx = none` models a failed
read); on success check the handle (`hv`), call the codec, append its
output to the open packet, and repeat while the codec wrote nothing and
frames remain.  The fuel is the current `nb_frame`, which bounds the
iterations because every continuing pass decrements it. -/
def innerB (hv : Bool) (bpf : Nat) (ev : Nat → Option EncEvt) : Nat → StB → StB
  | 0, s => s
  | n + 1, s =>
    match ev s.readIdx with
    | none =>
      { s with counterAdd := s.counterAdd + (n + 1) * bpf, nbFrame := 0,
               readIdx := s.readIdx + 1 }
    | some e =>
      if hv = false then
        { s with droppedAdd := s.droppedAdd + 1, readIdx := s.readIdx + 1, dropped := true }
      else
        match e with
        | EncEvt.err =>
          { s with droppedAdd := s.droppedAdd + 1, readIdx := s.readIdx + 1, dropped := true }
        | EncEvt.ok w fr =>
          let s' : StB :=
            { s with
              payload := s.payload ++ w
              lsFrames := s.lsFrames + fr
              nbFrame := n
              readIdx := s.readIdx + 1 }
          if w.length = 0 ∧ n ≠ 0 then innerB hv bpf ev n s' else s'

/-- The outer `while (nb_frame)` loop of the second variant: open a fresh
`p_buf`, run the inner loop, and then either return on a drop, emit the
packet (stamping the pre-packet timestamp, advancing the session timestamp
by `layer_specific * lhdc_frame_size`, and returning early if the enqueue
callback rejects it), or free the empty `p_buf` without counting a drop.
The fuel only serves termination; the loop itself exits on `nb_frame == 0`. -/
def outerB (hv : Bool) (bpf frameSize : Nat) (ev : Nat → Option EncEvt)
    (accept : Nat → Bool) : Nat → StB → StB
  | 0, s => s
  | f + 1, s =>
    if s.nbFrame = 0 then s
    else
      let s1 := innerB hv bpf ev s.nbFrame { s with payload := [], lsFrames := 0 }
      if s1.dropped then s1
      else if s1.payload.length ≠ 0 then
        let pkt : PacketB := ⟨s1.payload, s1.lsFrames, s1.timestamp % U32,
                              s1.remainNbFrame - s1.nbFrame⟩
        let s2 := { s1 with
          timestamp := (s1.timestamp + s1.lsFrames * frameSize) % U32,
          remainNbFrame := s1.nbFrame,
          emitted := s1.emitted ++ [pkt],
          pktIdx := s1.pktIdx + 1 }
        if accept s1.pktIdx then outerB hv bpf frameSize ev accept f s2 else s2
      else outerB hv bpf frameSize ev accept f s1

/-- Embedding of `a2dp_lhdc_encode_frames` of the second encoder variant
(the repository file of unknown name): run the outer loop on a fresh state
with `remain_nb_frame = nb_frame` and `lhdc_frame_size = 512`. -/
def a2dp_lhdc_encode_frames_v2 (hv : Bool) (bpf : Nat) (ev : Nat → Option EncEvt)
    (accept : Nat → Bool) (nbFrame ts : Nat) : StB :=
  outerB hv bpf 512 ev accept nbFrame
    ⟨[], 0, nbFrame, nbFrame, 0, 0, 0, ts, [], 0, false⟩

/-- State after one complete outer-loop pass that reads one frame, gets
non-empty codec output and emits the resulting packet. -/
def emitStep (frameSize : Nat) (wv : List Nat) (frv m : Nat) (s : StB) : StB :=
  { s with
    payload := [] ++ wv
    lsFrames := 0 + frv
    nbFrame := m
    readIdx := s.readIdx + 1
    timestamp := (s.timestamp + (0 + frv) * frameSize) % U32
    remainNbFrame := m
    emitted := s.emitted ++ [⟨[] ++ wv, 0 + frv, s.timestamp % U32, s.remainNbFrame - m⟩]
    pktIdx := s.pktIdx + 1 }

theorem sanity_pacing_example :
    (a2dp_lhdc_get_num_frame_iteration 2048 ⟨0, 3840, 0⟩ 1000000).num_of_frames = 1 := by
  decide

theorem counter_sub_div_mul (c pbf : Nat) (h : 0 < pbf) : c - c / pbf * pbf < pbf := by
  have h1 := Nat.div_add_mod c pbf
  have h2 := Nat.mod_lt c h
  have h3 : c / pbf * pbf = pbf * (c / pbf) := Nat.mul_comm _ _
  omega

/-- C4: after every pacing computation the accumulator satisfies
`0 ≤ counter < bytes_per_frame` (the lower bound is inherent to `Nat`). -/
theorem C4_counter_bound (pbf : Nat) (st : FeedingState) (t : Nat) (h : 0 < pbf) :
    (a2dp_lhdc_get_num_frame_iteration pbf st t).state.counter < pbf := by
  unfold a2dp_lhdc_get_num_frame_iteration
  exact counter_sub_div_mul _ _ h

/-- Witness for C4 at a concrete tick. -/
theorem C4_counter_bound_witness :
    0 < 2048 ∧
      (a2dp_lhdc_get_num_frame_iteration 2048 ⟨0, 3840, 0⟩ 20000).state.counter < 2048 :=
  ⟨by decide, C4_counter_bound 2048 ⟨0, 3840, 0⟩ 20000 (by decide)⟩

/-- C3 as stated is false on the code: the pacer computes
`bytes_per_tick * us_this_tick` in `uint32_t`, so a large inter-tick gap
wraps modulo 2^32 and PCM budget is destroyed.  Parameters: 16-bit stereo at
48 kHz (`bytes_per_tick = 3840`, `bytes_per_frame = 2048`), ticks at 1 s and
4 s: the exact budget sum is 3840 + 576000 but the code retains only
150343 bytes of it. -/
theorem C3_conservation_counterexample :
    ¬ ((((runPacing 2048 ⟨0, 3840, 0⟩ [1000000, 4000000]).2.map (· * 2048)).sum
          + (runPacing 2048 ⟨0, 3840, 0⟩ [1000000, 4000000]).1.counter)
        = (specBudgets 3840 0 [1000000, 4000000]).sum) := by
  decide

theorem us_this_tick_eq (st : FeedingState) (t : Nat) (h1 : st.last_frame_us ≤ t)
    (h2 : t < U64)
    (h3 : (if st.last_frame_us = 0 then A2DP_LHDC_ENCODER_INTERVAL_MS * 1000
           else t - st.last_frame_us) < U32) :
    lhdc_us_this_tick st t
      = (if st.last_frame_us = 0 then A2DP_LHDC_ENCODER_INTERVAL_MS * 1000
         else t - st.last_frame_us) := by
  unfold lhdc_us_this_tick
  by_cases h : st.last_frame_us = 0
  · simp [h]
  · simp only [h, ne_eq, not_false_iff, if_true, ite_false, u64sub]
    have hlt : st.last_frame_us < U64 := lt_of_le_of_lt h1 h2
    rw [Nat.mod_eq_of_lt hlt]
    have hsplit : t + U64 - st.last_frame_us = (t - st.last_frame_us) + U64 := by omega
    rw [hsplit, Nat.add_mod_right]
    rw [Nat.mod_eq_of_lt (by omega : t - st.last_frame_us < U64)]
    rw [Nat.mod_eq_of_lt (by simpa [h] using h3)]

theorem counter1_eq (st : FeedingState) (t : Nat) (h1 : st.last_frame_us ≤ t)
    (h2 : t < U64)
    (h3 : (if st.last_frame_us = 0 then A2DP_LHDC_ENCODER_INTERVAL_MS * 1000
           else t - st.last_frame_us) < U32)
    (h4 : st.bytes_per_tick *
            (if st.last_frame_us = 0 then A2DP_LHDC_ENCODER_INTERVAL_MS * 1000
             else t - st.last_frame_us) < U32)
    (h5 : st.counter + st.bytes_per_tick *
            (if st.last_frame_us = 0 then A2DP_LHDC_ENCODER_INTERVAL_MS * 1000
             else t - st.last_frame_us) / (A2DP_LHDC_ENCODER_INTERVAL_MS * 1000) < U32) :
    lhdc_counter1 st t
      = st.counter + st.bytes_per_tick *
          (if st.last_frame_us = 0 then A2DP_LHDC_ENCODER_INTERVAL_MS * 1000
           else t - st.last_frame_us) / (A2DP_LHDC_ENCODER_INTERVAL_MS * 1000) := by
  unfold lhdc_counter1
  rw [us_this_tick_eq st t h1 h2 h3]
  rw [Nat.mod_eq_of_lt h4, Nat.mod_eq_of_lt h5]

/-- Exact behaviour of one pacing tick under the no-overflow side conditions. -/
theorem pacing_tick_exact (pbf : Nat) (st : FeedingState) (t : Nat)
    (h1 : st.last_frame_us ≤ t) (h2 : t < U64)
    (h3 : (if st.last_frame_us = 0 then A2DP_LHDC_ENCODER_INTERVAL_MS * 1000
           else t - st.last_frame_us) < U32)
    (h4 : st.bytes_per_tick *
            (if st.last_frame_us = 0 then A2DP_LHDC_ENCODER_INTERVAL_MS * 1000
             else t - st.last_frame_us) < U32)
    (h5 : st.counter + st.bytes_per_tick *
            (if st.last_frame_us = 0 then A2DP_LHDC_ENCODER_INTERVAL_MS * 1000
             else t - st.last_frame_us) / (A2DP_LHDC_ENCODER_INTERVAL_MS * 1000) < U32)
    (h6 : (a2dp_lhdc_get_num_frame_iteration pbf st t).result < U8) :
    (a2dp_lhdc_get_num_frame_iteration pbf st t).num_of_frames * pbf
        + (a2dp_lhdc_get_num_frame_iteration pbf st t).state.counter
      = st.counter + st.bytes_per_tick *
          (if st.last_frame_us = 0 then A2DP_LHDC_ENCODER_INTERVAL_MS * 1000
           else t - st.last_frame_us) / (A2DP_LHDC_ENCODER_INTERVAL_MS * 1000)
    ∧ (a2dp_lhdc_get_num_frame_iteration pbf st t).state.bytes_per_tick = st.bytes_per_tick
    ∧ (a2dp_lhdc_get_num_frame_iteration pbf st t).state.last_frame_us = t := by
  have hc1 := counter1_eq st t h1 h2 h3 h4 h5
  unfold a2dp_lhdc_get_num_frame_iteration at h6 ⊢
  simp only at h6 ⊢
  refine ⟨?_, trivial, Nat.mod_eq_of_lt h2⟩
  rw [Nat.mod_eq_of_lt h6, ← hc1]
  have hd := Nat.div_add_mod (lhdc_counter1 st t) pbf
  have hle : lhdc_counter1 st t / pbf * pbf ≤ lhdc_counter1 st t :=
    Nat.div_mul_le_self _ _
  have h3m : lhdc_counter1 st t / pbf * pbf = pbf * (lhdc_counter1 st t / pbf) :=
    Nat.mul_comm _ _
  omega

/-- C3 amended: the conservation law holds provided no tick overflows the
32-bit pacing arithmetic and every computed frame count fits the 8-bit out
parameter (`pacingOk`). -/
theorem C3_conservation_amended (pbf : Nat) (st : FeedingState) (ts : List Nat)
    (hok : pacingOk pbf st ts = true) :
    ((runPacing pbf st ts).2.map (· * pbf)).sum + (runPacing pbf st ts).1.counter
      = st.counter + (specBudgets st.bytes_per_tick st.last_frame_us ts).sum := by
  induction ts generalizing st with
  | nil => simp [runPacing, specBudgets]
  | cons t ts ih =>
    simp only [pacingOk, Bool.and_eq_true, decide_eq_true_eq] at hok
    obtain ⟨⟨⟨⟨⟨⟨hA, hB⟩, hC⟩, hD⟩, hE⟩, hF⟩, hrest⟩ := hok
    have hx := pacing_tick_exact pbf st t hA hB hC hD hE hF
    obtain ⟨hmain, hbpt, hlast⟩ := hx
    simp only [runPacing, specBudgets, List.map_cons, List.sum_cons]
    have ihx := ih (a2dp_lhdc_get_num_frame_iteration pbf st t).state hrest
    rw [hbpt, hlast] at ihx
    by_cases h0 : st.last_frame_us = 0
    · simp only [h0, if_pos] at hmain ⊢
      omega
    · simp only [h0, if_neg, ite_false] at hmain ⊢
      omega

/-- Witness for the amended C3 on a concrete two-tick run. -/
theorem C3_conservation_amended_witness :
    pacingOk 2048 ⟨0, 3840, 0⟩ [20000, 40000] = true ∧
      (((runPacing 2048 ⟨0, 3840, 0⟩ [20000, 40000]).2.map (· * 2048)).sum
          + (runPacing 2048 ⟨0, 3840, 0⟩ [20000, 40000]).1.counter
        = 0 + (specBudgets 3840 0 [20000, 40000]).sum) :=
  ⟨by decide, C3_conservation_amended 2048 ⟨0, 3840, 0⟩ [20000, 40000] (by decide)⟩

theorem placeChunk_spec (max : Nat) (hmax : 0 < max) :
    ∀ fuel chunk st, st.opn.length < max → chunk.length ≤ fuel →
      joined (placeChunk max fuel chunk st) = joined st ++ chunk
      ∧ (placeChunk max fuel chunk st).opn.length < max
      ∧ (∀ p ∈ (placeChunk max fuel chunk st).closed, p ∈ st.closed ∨ p.length = max) := by
  intro fuel
  induction fuel with
  | zero =>
    intro chunk st hop hf
    have hnil : chunk = [] := List.eq_nil_of_length_eq_zero (Nat.le_zero.mp hf)
    subst hnil
    refine ⟨by simp [placeChunk, joined], by simpa [placeChunk] using hop, ?_⟩
    intro p hp
    exact Or.inl (by simpa [placeChunk] using hp)
  | succ fuel ih =>
    intro chunk st hop hf
    match chunk with
    | [] =>
      refine ⟨by simp [placeChunk, joined], by simpa [placeChunk] using hop, ?_⟩
      intro p hp
      exact Or.inl (by simpa [placeChunk] using hp)
    | c :: cs =>
      have hspace : 1 ≤ max - st.opn.length := by omega
      have hb1 : 1 ≤ min (c :: cs).length (max - st.opn.length) := by
        have : 1 ≤ (c :: cs).length := by simp
        omega
      have hbs : min (c :: cs).length (max - st.opn.length) ≤ (c :: cs).length :=
        Nat.min_le_left _ _
      have hbsp : min (c :: cs).length (max - st.opn.length) ≤ max - st.opn.length :=
        Nat.min_le_right _ _
      have hrest : ((c :: cs).drop (min (c :: cs).length (max - st.opn.length))).length ≤ fuel := by
        rw [List.length_drop]
        have := hf
        simp only [List.length_cons] at this ⊢
        omega
      have htake : ((c :: cs).take (min (c :: cs).length (max - st.opn.length))).length
          = min (c :: cs).length (max - st.opn.length) := by
        rw [List.length_take]
        omega
      by_cases hcl : max ≤ (st.opn ++ (c :: cs).take (min (c :: cs).length (max - st.opn.length))).length
      · have heq : placeChunk max (fuel + 1) (c :: cs) st
            = placeChunk max fuel ((c :: cs).drop (min (c :: cs).length (max - st.opn.length)))
                ⟨[], st.closed ++ [st.opn ++ (c :: cs).take (min (c :: cs).length (max - st.opn.length))]⟩ := by
          simp only [placeChunk]
          rw [if_pos hcl]
        have hlenfull : (st.opn ++ (c :: cs).take (min (c :: cs).length (max - st.opn.length))).length = max := by
          rw [List.length_append, htake] at hcl ⊢
          omega
        obtain ⟨IH1, IH2, IH3⟩ := ih
          ((c :: cs).drop (min (c :: cs).length (max - st.opn.length)))
          ⟨[], st.closed ++ [st.opn ++ (c :: cs).take (min (c :: cs).length (max - st.opn.length))]⟩
          (by simpa using hmax) hrest
        refine ⟨?_, by rw [heq]; exact IH2, ?_⟩
        · rw [heq, IH1]
          simp only [joined, List.join_append, List.join_cons, List.join_nil,
            List.append_nil, List.append_assoc]
          rw [List.take_append_drop]
        · intro p hp
          rw [heq] at hp
          rcases IH3 p hp with hmem | hlen
          · simp only [List.mem_append, List.mem_singleton] at hmem
            rcases hmem with hmem | hpe
            · exact Or.inl hmem
            · exact Or.inr (by rw [hpe]; exact hlenfull)
          · exact Or.inr hlen
      · have heq : placeChunk max (fuel + 1) (c :: cs) st
            = placeChunk max fuel ((c :: cs).drop (min (c :: cs).length (max - st.opn.length)))
                ⟨st.opn ++ (c :: cs).take (min (c :: cs).length (max - st.opn.length)), st.closed⟩ := by
          simp only [placeChunk]
          rw [if_neg hcl]
        have hopn' : (st.opn ++ (c :: cs).take (min (c :: cs).length (max - st.opn.length))).length < max :=
          Nat.lt_of_not_le hcl
        obtain ⟨IH1, IH2, IH3⟩ := ih
          ((c :: cs).drop (min (c :: cs).length (max - st.opn.length)))
          ⟨st.opn ++ (c :: cs).take (min (c :: cs).length (max - st.opn.length)), st.closed⟩
          (by simpa using hopn') hrest
        refine ⟨?_, by rw [heq]; exact IH2, ?_⟩
        · rw [heq, IH1]
          simp only [joined, List.append_assoc]
          rw [List.take_append_drop]
        · intro p hp
          rw [heq] at hp
          exact IH3 p hp

theorem frameLoopA_spec (max bpf : Nat) (reads : Nat → Option (List Nat)) (hmax : 0 < max) :
    ∀ n idx st, st.opn.length < max →
      joined (frameLoopA max bpf reads n idx st).asm
          = joined st ++ (consumedChunks reads n idx).join
      ∧ (frameLoopA max bpf reads n idx st).asm.opn.length < max
      ∧ (∀ p ∈ (frameLoopA max bpf reads n idx st).asm.closed, p ∈ st.closed ∨ p.length = max)
      ∧ (frameLoopA max bpf reads n idx st).counterAdd
          = (n - (frameLoopA max bpf reads n idx st).consumed) * bpf
      ∧ (frameLoopA max bpf reads n idx st).consumed
          = (consumedChunks reads n idx).length
      ∧ (frameLoopA max bpf reads n idx st).consumed ≤ n := by
  intro n
  induction n with
  | zero =>
    intro idx st hop
    refine ⟨by simp [frameLoopA, consumedChunks, joined], by simpa [frameLoopA] using hop,
      ?_, by simp [frameLoopA], by simp [frameLoopA, consumedChunks], by simp [frameLoopA]⟩
    intro p hp
    exact Or.inl (by simpa [frameLoopA] using hp)
  | succ n ih =>
    intro idx st hop
    cases hread : reads idx with
    | none =>
      have heq : frameLoopA max bpf reads (n + 1) idx st = ⟨st, (n + 1) * bpf, 0⟩ := by
        simp [frameLoopA, hread]
      have hcc : consumedChunks reads (n + 1) idx = [] := by
        simp [consumedChunks, hread]
      rw [heq, hcc]
      exact ⟨by simp, hop, fun p hp => Or.inl hp, by simp, by simp, by simp⟩
    | some chunk =>
      have hpc := placeChunk_spec max hmax (chunk.length + 1) chunk st hop (by omega)
      obtain ⟨PC1, PC2, PC3⟩ := hpc
      have heq : frameLoopA max bpf reads (n + 1) idx st
          = ⟨(frameLoopA max bpf reads n (idx + 1) (placeChunk max (chunk.length + 1) chunk st)).asm,
             (frameLoopA max bpf reads n (idx + 1) (placeChunk max (chunk.length + 1) chunk st)).counterAdd,
             (frameLoopA max bpf reads n (idx + 1) (placeChunk max (chunk.length + 1) chunk st)).consumed + 1⟩ := by
        simp [frameLoopA, hread]
      have hcc : consumedChunks reads (n + 1) idx
          = chunk :: consumedChunks reads n (idx + 1) := by
        simp [consumedChunks, hread]
      obtain ⟨IH1, IH2, IH3, IH4, IH5, IH6⟩ :=
        ih (idx + 1) (placeChunk max (chunk.length + 1) chunk st) PC2
      rw [heq, hcc]
      refine ⟨?_, IH2, ?_, ?_, ?_, ?_⟩
      · simp only [IH1, PC1, List.join_cons, List.append_assoc]
      · intro p hp
        rcases IH3 p hp with hmem | hlen
        · exact PC3 p hmem
        · exact Or.inr hlen
      · simp only [IH4]
        congr 1
        omega
      · simp only [List.length_cons, IH5]
      · simp only [List.length_cons]
        omega

theorem sanity_fragmentation_example :
    ((a2dp_lhdc_encode_frames 663 2048 1 2
        (fun i => if i = 0 then some (List.replicate 1500 9) else none)
        1 0 0).packets.map (fun p => p.payload.length)) = [663, 663, 174] := by
  decide

theorem tickPayloadsA_spec (max bpf : Nat) (reads : Nat → Option (List Nat))
    (nbFrame : Nat) (hmax : 0 < max) :
    (tickPayloadsA max bpf reads nbFrame).join = (consumedChunks reads nbFrame 0).join
    ∧ (∀ p ∈ tickPayloadsA max bpf reads nbFrame, p.length ≤ max)
    ∧ ∀ i (h : i + 1 < (tickPayloadsA max bpf reads nbFrame).length),
        ((tickPayloadsA max bpf reads nbFrame).get ⟨i, Nat.lt_of_succ_lt h⟩).length = max := by
  obtain ⟨H1, H2, H3, _, _, _⟩ :=
    frameLoopA_spec max bpf reads hmax nbFrame 0 ⟨[], []⟩ (by simpa using hmax)
  have hclosed : ∀ p ∈ (frameLoopA max bpf reads nbFrame 0 ⟨[], []⟩).asm.closed,
      p.length = max := by
    intro p hp
    rcases H3 p hp with hmem | hlen
    · simp at hmem
    · exact hlen
  refine ⟨?_, ?_, ?_⟩
  · unfold tickPayloadsA
    by_cases hopn : (frameLoopA max bpf reads nbFrame 0 ⟨[], []⟩).asm.opn = []
    · simp only [hopn, if_pos]
      simpa [joined, hopn] using H1
    · simp only [hopn, if_neg, ite_false, List.join_append, List.join_cons, List.join_nil,
        List.append_nil]
      simpa [joined] using H1
  · intro p hp
    unfold tickPayloadsA at hp
    simp only [List.mem_append] at hp
    rcases hp with hp | hp
    · exact le_of_eq (hclosed p hp)
    · by_cases hopn : (frameLoopA max bpf reads nbFrame 0 ⟨[], []⟩).asm.opn = []
      · simp [hopn] at hp
      · simp only [hopn, if_neg, ite_false, List.mem_singleton] at hp
        subst hp
        exact Nat.le_of_lt H2
  · intro i h
    unfold tickPayloadsA at h ⊢
    have hlen : i < (frameLoopA max bpf reads nbFrame 0 ⟨[], []⟩).asm.closed.length := by
      by_cases hopn : (frameLoopA max bpf reads nbFrame 0 ⟨[], []⟩).asm.opn = []
      · simp [hopn, List.length_append] at h
        omega
      · simp [hopn, List.length_append] at h
        omega
    rw [List.get_append _ hlen]
    exact hclosed _ (List.get_mem _ _ _)

theorem tagLoopA_map_payload (latency numShift nbFrameOrg n ts : Nat) :
    ∀ pls i seqv,
      (tagLoopA latency numShift nbFrameOrg n ts i seqv pls).map (fun p => p.payload) = pls := by
  intro pls
  induction pls with
  | nil => intro i seqv; simp [tagLoopA]
  | cons pl pls ih =>
    intro i seqv
    simp [tagLoopA, ih]

theorem length_payload_get_eq (xs : List PacketA) (ys : List (List Nat))
    (h : xs.map (fun p => p.payload) = ys) (i : Nat)
    (hi : i < xs.length) (hi2 : i < ys.length) :
    (xs.get ⟨i, hi⟩).payload = ys.get ⟨i, hi2⟩ := by
  subst h
  simp

theorem packetsA_map_payload (max bpf latency numShift : Nat)
    (reads : Nat → Option (List Nat)) (nbFrame ts seqv : Nat) :
    ((a2dp_lhdc_encode_frames max bpf latency numShift reads nbFrame ts seqv).packets.map
        (fun p => p.payload)) = tickPayloadsA max bpf reads nbFrame := by
  unfold a2dp_lhdc_encode_frames
  by_cases hn : (tickPayloadsA max bpf reads nbFrame).length = 1
  · simp [hn, List.map_map, Function.comp_def]
  · simp [hn, tagLoopA_map_payload]

/-- C1: in every tick, the payloads of the emitted packets concatenate (in
emission order) to exactly the byte stream produced by the encoder for the
tick's frames; every payload is at most `maxPayload = MTU - headerLen`
(`max_mtu_len`) bytes; and every emitted packet except the last is filled to
exactly `maxPayload` bytes. -/
theorem C1_fragmentation_roundtrip (max bpf latency numShift : Nat)
    (reads : Nat → Option (List Nat)) (nbFrame ts seqv : Nat) (hmax : 0 < max) :
    (((a2dp_lhdc_encode_frames max bpf latency numShift reads nbFrame ts seqv).packets.map
        (fun p => p.payload)).join = (consumedChunks reads nbFrame 0).join)
    ∧ (∀ p ∈ (a2dp_lhdc_encode_frames max bpf latency numShift reads nbFrame ts seqv).packets,
        p.payload.length ≤ max)
    ∧ ∀ i (h : i + 1 <
          (a2dp_lhdc_encode_frames max bpf latency numShift reads nbFrame ts seqv).packets.length),
        (((a2dp_lhdc_encode_frames max bpf latency numShift reads nbFrame ts seqv).packets.get
            ⟨i, Nat.lt_of_succ_lt h⟩).payload).length = max := by
  obtain ⟨P1, P2, P3⟩ := tickPayloadsA_spec max bpf reads nbFrame hmax
  have hmap := packetsA_map_payload max bpf latency numShift reads nbFrame ts seqv
  refine ⟨by rw [hmap]; exact P1, ?_, ?_⟩
  · intro p hp
    have : p.payload ∈ tickPayloadsA max bpf reads nbFrame := by
      rw [← hmap]
      exact List.mem_map_of_mem _ hp
    exact P2 _ this
  · intro i h
    have hlen : (a2dp_lhdc_encode_frames max bpf latency numShift reads nbFrame ts seqv).packets.length
        = (tickPayloadsA max bpf reads nbFrame).length := by
      rw [← hmap, List.length_map]
    have h' : i + 1 < (tickPayloadsA max bpf reads nbFrame).length := by omega
    have hg := length_payload_get_eq _ _ hmap i (Nat.lt_of_succ_lt h) (Nat.lt_of_succ_lt h')
    rw [hg]
    exact P3 i h'

/-- Witness for C1: two frames of 5 and 3 bytes with `maxPayload = 4` give
packets `[5,5,5,5] [5,5,7,7] [7]`. -/
theorem C1_fragmentation_roundtrip_witness :
    0 < 4 ∧
      ((((a2dp_lhdc_encode_frames 4 2048 1 2
            (fun i => if i = 0 then some [5, 5, 5, 5, 5, 5] else
                      if i = 1 then some [7, 7, 7] else none)
            2 0 0).packets.map (fun p => p.payload)).join
          = (consumedChunks
              (fun i => if i = 0 then some [5, 5, 5, 5, 5, 5] else
                        if i = 1 then some [7, 7, 7] else none) 2 0).join)
        ∧ (∀ p ∈ (a2dp_lhdc_encode_frames 4 2048 1 2
            (fun i => if i = 0 then some [5, 5, 5, 5, 5, 5] else
                      if i = 1 then some [7, 7, 7] else none)
            2 0 0).packets, p.payload.length ≤ 4)
        ∧ ∀ i (h : i + 1 <
              (a2dp_lhdc_encode_frames 4 2048 1 2
                (fun i => if i = 0 then some [5, 5, 5, 5, 5, 5] else
                          if i = 1 then some [7, 7, 7] else none)
                2 0 0).packets.length),
            (((a2dp_lhdc_encode_frames 4 2048 1 2
                (fun i => if i = 0 then some [5, 5, 5, 5, 5, 5] else
                          if i = 1 then some [7, 7, 7] else none)
                2 0 0).packets.get ⟨i, Nat.lt_of_succ_lt h⟩).payload).length = 4) :=
  ⟨by decide,
    C1_fragmentation_roundtrip 4 2048 1 2
      (fun i => if i = 0 then some [5, 5, 5, 5, 5, 5] else
                if i = 1 then some [7, 7, 7] else none)
      2 0 0 (by decide)⟩

theorem or256_eq_add {a m : Nat} (hm : m < 2 ^ 8) : 2 ^ 8 * a ||| m = 2 ^ 8 * a + m :=
  (Nat.mul_add_lt_is_or hm a).symm

theorem or256_mod_u16 {a m : Nat} (ha : a < 2 ^ 8) (hm : m < 2 ^ 8) :
    (2 ^ 8 * a ||| m) % U16 = 2 ^ 8 * a ||| m := by
  rw [or256_eq_add hm]
  apply Nat.mod_eq_of_lt
  have h8 : (2 : Nat) ^ 8 = 256 := by norm_num
  have h16 : U16 = 65536 := by norm_num [U16]
  rw [h8] at ha ⊢
  rw [h16]
  omega

theorem or256_shiftRight {a m : Nat} (hm : m < 2 ^ 8) :
    (2 ^ 8 * a ||| m) >>> 8 = a := by
  rw [or256_eq_add hm, Nat.shiftRight_eq_div_pow]
  rw [Nat.mul_add_div (by norm_num : 0 < (2 : Nat) ^ 8)]
  rw [Nat.div_eq_of_lt hm]
  omega

theorem or256_testBit_lo {a m j : Nat} (hj : j < 8) :
    (2 ^ 8 * a ||| m).testBit j = m.testBit j := by
  rw [Nat.testBit_lor, Nat.testBit_mul_pow_two]
  have : ¬ (j ≥ 8) := by omega
  simp [this]

theorem or256_mod32 {a m : Nat} (hm : m < 2 ^ 8) :
    (2 ^ 8 * a ||| m) % 32 = m % 32 := by
  rw [or256_eq_add hm]
  have : 2 ^ 8 * a = 32 * (8 * a) := by ring
  rw [this, Nat.mul_add_mod]

theorem seq_hi_form (s : Nat) : (s % U16 * 256) % U16 = 2 ^ 8 * (s % 256) := by
  rw [Nat.mod_mul_mod]
  have h16 : U16 = 256 * 256 := by norm_num [U16]
  rw [h16, Nat.mul_mod_mul_right]
  ring

/-- Normal form of the fragmented-case header word: sequence byte shifted
into the high byte, metadata flags in the low byte. -/
theorem tagMultiA_eq (latency numShift nbFrameOrg n i seqv : Nat)
    (hl : latency < 2 ^ 8) (hn : nbFrameOrg <<< numShift < 2 ^ 8) :
    tagMultiA latency numShift nbFrameOrg n i seqv
      = 2 ^ 8 * (seqv % 256) |||
          ((A2DP_LHDC_HDR_F_MSK ||| latency) |||
            (if i = 0 then A2DP_LHDC_HDR_S_MSK ||| nbFrameOrg <<< numShift
             else if i = n - 1 then A2DP_LHDC_HDR_L_MSK else 0)) := by
  have hF : A2DP_LHDC_HDR_F_MSK < 2 ^ 8 := by norm_num [A2DP_LHDC_HDR_F_MSK]
  have hS : A2DP_LHDC_HDR_S_MSK < 2 ^ 8 := by norm_num [A2DP_LHDC_HDR_S_MSK]
  have hL : A2DP_LHDC_HDR_L_MSK < 2 ^ 8 := by norm_num [A2DP_LHDC_HDR_L_MSK]
  have hFl : A2DP_LHDC_HDR_F_MSK ||| latency < 2 ^ 8 := Nat.or_lt_two_pow hF hl
  have hSn : A2DP_LHDC_HDR_S_MSK ||| nbFrameOrg <<< numShift < 2 ^ 8 :=
    Nat.or_lt_two_pow hS hn
  have ha : seqv % 256 < 2 ^ 8 := by
    have := Nat.mod_lt seqv (show 0 < 256 by norm_num)
    norm_num
    omega
  unfold tagMultiA
  simp only [seq_hi_form, or256_mod_u16 ha hFl]
  by_cases h0 : i = 0
  · simp only [if_pos h0]
    rw [Nat.or_assoc, or256_mod_u16 ha (Nat.or_lt_two_pow hFl hSn)]
  · by_cases hlast : i = n - 1
    · simp only [if_neg h0, if_pos hlast]
      rw [Nat.or_assoc, or256_mod_u16 ha (Nat.or_lt_two_pow hFl hL)]
    · simp only [if_neg h0, if_neg hlast]
      rw [Nat.or_zero]

/-- Normal form of the single-packet header word. -/
theorem tagSingleA_eq (latency numShift nbFrameOrg seqv : Nat)
    (hl : latency < 2 ^ 8) (hn : nbFrameOrg <<< numShift < 2 ^ 8) :
    tagSingleA latency numShift nbFrameOrg seqv
      = 2 ^ 8 * (seqv % 256) ||| (latency ||| nbFrameOrg <<< numShift) := by
  have ha : seqv % 256 < 2 ^ 8 := by
    have := Nat.mod_lt seqv (show 0 < 256 by norm_num)
    norm_num
    omega
  unfold tagSingleA
  rw [seq_hi_form, or256_mod_u16 ha (Nat.or_lt_two_pow hl hn)]

theorem lor_mod_two_pow (x y k : Nat) : (x ||| y) % 2 ^ k = x % 2 ^ k ||| y % 2 ^ k := by
  apply Nat.eq_of_testBit_eq
  intro j
  simp only [Nat.testBit_mod_two_pow, Nat.testBit_lor]
  by_cases hj : j < k <;> simp [hj]

theorem lor_mod32 (x y : Nat) : (x ||| y) % 32 = x % 32 ||| y % 32 := by
  have h : (32 : Nat) = 2 ^ 5 := by norm_num
  rw [h]
  exact lor_mod_two_pow x y 5

theorem testBit_of_lt_32 {x j : Nat} (hx : x < 32) (hj : 5 ≤ j) : x.testBit j = false := by
  apply Nat.testBit_lt_two_pow
  calc x < 32 := hx
    _ = 2 ^ 5 := by norm_num
    _ ≤ 2 ^ j := Nat.pow_le_pow_right (by norm_num) hj

theorem lor_shift_div (latency numShift nb : Nat) (h : latency < 2 ^ numShift) :
    (latency ||| nb <<< numShift) / 2 ^ numShift = nb := by
  have h1 : latency ||| nb <<< numShift = 2 ^ numShift * nb + latency := by
    rw [Nat.shiftLeft_eq, Nat.or_comm, Nat.mul_comm nb (2 ^ numShift)]
    exact (Nat.mul_add_lt_is_or h nb).symm
  rw [h1, Nat.mul_add_div (Nat.two_pow_pos numShift), Nat.div_eq_of_lt h]
  omega

theorem shift32_lt_u8 {x : Nat} (h : x < 32) : x < 2 ^ 8 := by omega

/-- The sequence byte of a fragmented-case header word is the low byte of
the `buf_seq` value assigned at close time. -/
theorem tagMultiA_shiftRight (latency numShift nbFrameOrg n i seqv : Nat)
    (hl : latency < 2 ^ 8) (hn : nbFrameOrg <<< numShift < 2 ^ 8) :
    tagMultiA latency numShift nbFrameOrg n i seqv >>> 8 = seqv % 256 := by
  rw [tagMultiA_eq latency numShift nbFrameOrg n i seqv hl hn]
  apply or256_shiftRight
  apply Nat.or_lt_two_pow
  · exact Nat.or_lt_two_pow (by norm_num [A2DP_LHDC_HDR_F_MSK]) hl
  · split
    · exact Nat.or_lt_two_pow (by norm_num [A2DP_LHDC_HDR_S_MSK]) hn
    · split
      · norm_num [A2DP_LHDC_HDR_L_MSK]
      · norm_num

theorem tagSingleA_shiftRight (latency numShift nbFrameOrg seqv : Nat)
    (hl : latency < 2 ^ 8) (hn : nbFrameOrg <<< numShift < 2 ^ 8) :
    tagSingleA latency numShift nbFrameOrg seqv >>> 8 = seqv % 256 := by
  rw [tagSingleA_eq latency numShift nbFrameOrg seqv hl hn]
  exact or256_shiftRight (Nat.or_lt_two_pow hl hn)

/-- Header facts for the single-packet case: no fragmentation flag and the
frame-count field holds the tick's frame count. -/
theorem tagSingleA_facts (latency numShift nb seqv : Nat) (hl32 : latency < 32)
    (hlsh : latency < 2 ^ numShift) (hn32 : nb <<< numShift < 32) :
    (tagSingleA latency numShift nb seqv).testBit 7 = false
    ∧ tagSingleA latency numShift nb seqv % 32 / 2 ^ numShift = nb := by
  rw [tagSingleA_eq latency numShift nb seqv (shift32_lt_u8 hl32) (shift32_lt_u8 hn32)]
  constructor
  · rw [or256_testBit_lo (by norm_num)]
    rw [Nat.testBit_lor, testBit_of_lt_32 hl32 (by norm_num),
      testBit_of_lt_32 hn32 (by norm_num)]
    rfl
  · rw [or256_mod32 (Nat.or_lt_two_pow (shift32_lt_u8 hl32) (shift32_lt_u8 hn32))]
    have h32 : (32 : Nat) = 2 ^ 5 := by norm_num
    have hlt : latency ||| nb <<< numShift < 32 := by
      rw [h32]
      exact Nat.or_lt_two_pow (h32 ▸ hl32) (h32 ▸ hn32)
    rw [Nat.mod_eq_of_lt hlt]
    exact lor_shift_div latency numShift nb hlsh

/-- Header flag facts for the fragmented case: every packet carries the
fragmentation flag; the first also carries the start flag and the frame
count and no end flag; the last carries the end flag; interior packets
carry neither start nor end. -/
theorem tagMultiA_facts (latency numShift nb n i seqv : Nat) (hl32 : latency < 32)
    (hlsh : latency < 2 ^ numShift) (hn32 : nb <<< numShift < 32) :
    (tagMultiA latency numShift nb n i seqv).testBit 7 = true
    ∧ (i = 0 → (tagMultiA latency numShift nb n i seqv).testBit 6 = true
        ∧ (tagMultiA latency numShift nb n i seqv).testBit 5 = false
        ∧ tagMultiA latency numShift nb n i seqv % 32 / 2 ^ numShift = nb)
    ∧ (i ≠ 0 → i = n - 1 → (tagMultiA latency numShift nb n i seqv).testBit 5 = true)
    ∧ (i ≠ 0 → i ≠ n - 1 →
        (tagMultiA latency numShift nb n i seqv).testBit 6 = false
        ∧ (tagMultiA latency numShift nb n i seqv).testBit 5 = false) := by
  rw [tagMultiA_eq latency numShift nb n i seqv (shift32_lt_u8 hl32) (shift32_lt_u8 hn32)]
  have hF7 : A2DP_LHDC_HDR_F_MSK.testBit 7 = true := by decide
  have hF6 : A2DP_LHDC_HDR_F_MSK.testBit 6 = false := by decide
  have hF5 : A2DP_LHDC_HDR_F_MSK.testBit 5 = false := by decide
  have hS6 : A2DP_LHDC_HDR_S_MSK.testBit 6 = true := by decide
  have hS5 : A2DP_LHDC_HDR_S_MSK.testBit 5 = false := by decide
  have hL5 : A2DP_LHDC_HDR_L_MSK.testBit 5 = true := by decide
  have hl6 : latency.testBit 6 = false := testBit_of_lt_32 hl32 (by norm_num)
  have hl5 : latency.testBit 5 = false := testBit_of_lt_32 hl32 (by norm_num)
  have hl7 : latency.testBit 7 = false := testBit_of_lt_32 hl32 (by norm_num)
  have hn5 : (nb <<< numShift).testBit 5 = false := testBit_of_lt_32 hn32 (by norm_num)
  refine ⟨?_, ?_, ?_, ?_⟩
  · rw [or256_testBit_lo (by norm_num)]
    simp [Nat.testBit_lor, hF7]
  · intro h0
    simp only [h0, if_pos]
    refine ⟨?_, ?_, ?_⟩
    · rw [or256_testBit_lo (by norm_num)]
      simp [Nat.testBit_lor, hS6]
    · rw [or256_testBit_lo (by norm_num)]
      simp [Nat.testBit_lor, hF5, hl5, hS5, hn5]
    · rw [or256_mod32 (Nat.or_lt_two_pow
        (Nat.or_lt_two_pow (by norm_num [A2DP_LHDC_HDR_F_MSK]) (shift32_lt_u8 hl32))
        (Nat.or_lt_two_pow (by norm_num [A2DP_LHDC_HDR_S_MSK]) (shift32_lt_u8 hn32)))]
      rw [lor_mod32, lor_mod32, lor_mod32]
      rw [show A2DP_LHDC_HDR_F_MSK % 32 = 0 from by decide,
        show A2DP_LHDC_HDR_S_MSK % 32 = 0 from by decide,
        Nat.mod_eq_of_lt hl32, Nat.mod_eq_of_lt hn32]
      simp only [Nat.zero_or]
      exact lor_shift_div latency numShift nb hlsh
  · intro h0 hlast
    simp only [if_neg h0, if_pos hlast]
    rw [or256_testBit_lo (by norm_num)]
    simp [Nat.testBit_lor, hL5]
  · intro h0 hlast
    simp only [if_neg h0, if_neg hlast]
    constructor
    · rw [or256_testBit_lo (by norm_num)]
      simp [Nat.testBit_lor, hF6, hl6]
    · rw [or256_testBit_lo (by norm_num)]
      simp [Nat.testBit_lor, hF5, hl5]

theorem tagLoopA_length (latency numShift nbFrameOrg n ts : Nat) :
    ∀ pls i0 seqv,
      (tagLoopA latency numShift nbFrameOrg n ts i0 seqv pls).length = pls.length := by
  intro pls
  induction pls with
  | nil => intro i0 seqv; simp [tagLoopA]
  | cons pl pls ih =>
    intro i0 seqv
    simp [tagLoopA, ih]

theorem tagLoopA_getElem (latency numShift nbFrameOrg n ts : Nat) :
    ∀ pls i0 seqv k,
      (tagLoopA latency numShift nbFrameOrg n ts i0 seqv pls)[k]?
        = (pls[k]?).map (fun pl =>
            (⟨pl, tagMultiA latency numShift nbFrameOrg n (i0 + k) ((seqv + k) % U32),
              ts % U32⟩ : PacketA)) := by
  intro pls
  induction pls with
  | nil => intro i0 seqv k; simp [tagLoopA]
  | cons pl pls ih =>
    intro i0 seqv k
    cases k with
    | zero => simp [tagLoopA]
    | succ k =>
      have h1 : i0 + 1 + k = i0 + (k + 1) := by omega
      have h2 : seqv + 1 + k = seqv + (k + 1) := by omega
      simp only [tagLoopA, List.getElem?_cons_succ]
      rw [ih (i0 + 1) (seqv + 1) k, h1, h2]

theorem packetsA_eq (max bpf latency numShift : Nat) (reads : Nat → Option (List Nat))
    (nbFrame ts seqv : Nat) :
    (a2dp_lhdc_encode_frames max bpf latency numShift reads nbFrame ts seqv).packets
      = if (tickPayloadsA max bpf reads nbFrame).length = 1
        then (tickPayloadsA max bpf reads nbFrame).map (fun pl =>
          ⟨pl, tagSingleA latency numShift nbFrame (seqv % U32), ts % U32⟩)
        else tagLoopA latency numShift nbFrame (tickPayloadsA max bpf reads nbFrame).length
          ts 0 seqv (tickPayloadsA max bpf reads nbFrame) := rfl

/-- C2: header metadata at packet-closing time.  A single-packet tick is
marked unfragmented (no F flag) and carries the tick's frame count in the
count field; a multi-packet tick marks every packet with the F flag, the
first additionally with the S flag and the frame count (and no L flag), the
last with the L flag, and interior packets with neither S nor L.  The
hypotheses pin the externally-defined layout constants to the wire format:
the latency bits lie below the frame-count field and both lie below the
three flag bits. -/
theorem C2_header_tagging (max bpf latency numShift : Nat)
    (reads : Nat → Option (List Nat)) (nbFrame ts seqv : Nat)
    (hl32 : latency < 32) (hlsh : latency < 2 ^ numShift)
    (hn32 : nbFrame <<< numShift < 32) :
    ((a2dp_lhdc_encode_frames max bpf latency numShift reads nbFrame ts seqv).packets.length = 1 →
      ∀ p ∈ (a2dp_lhdc_encode_frames max bpf latency numShift reads nbFrame ts seqv).packets,
        p.layer_specific.testBit 7 = false
        ∧ p.layer_specific % 32 / 2 ^ numShift = nbFrame)
    ∧ (2 ≤ (a2dp_lhdc_encode_frames max bpf latency numShift reads nbFrame ts seqv).packets.length →
      ∀ k p,
        (a2dp_lhdc_encode_frames max bpf latency numShift reads nbFrame ts seqv).packets[k]? = some p →
        p.layer_specific.testBit 7 = true
        ∧ (k = 0 → p.layer_specific.testBit 6 = true
            ∧ p.layer_specific.testBit 5 = false
            ∧ p.layer_specific % 32 / 2 ^ numShift = nbFrame)
        ∧ (k = (a2dp_lhdc_encode_frames max bpf latency numShift reads nbFrame ts seqv).packets.length - 1 →
            p.layer_specific.testBit 5 = true)
        ∧ (0 < k →
            k < (a2dp_lhdc_encode_frames max bpf latency numShift reads nbFrame ts seqv).packets.length - 1 →
            p.layer_specific.testBit 6 = false ∧ p.layer_specific.testBit 5 = false)) := by
  rw [packetsA_eq]
  by_cases hn1 : (tickPayloadsA max bpf reads nbFrame).length = 1
  · simp only [if_pos hn1]
    constructor
    · intro _ p hp
      simp only [List.mem_map] at hp
      obtain ⟨pl, _, rfl⟩ := hp
      exact tagSingleA_facts latency numShift nbFrame (seqv % U32) hl32 hlsh hn32
    · intro h2
      rw [List.length_map, hn1] at h2
      omega
  · simp only [if_neg hn1]
    constructor
    · intro h1
      rw [tagLoopA_length] at h1
      exact absurd h1 hn1
    · intro h2 k p hkp
      rw [tagLoopA_getElem] at hkp
      rw [Option.map_eq_some'] at hkp
      obtain ⟨pl, hpl, rfl⟩ := hkp
      simp only [Nat.zero_add]
      obtain ⟨F1, F2, F3, F4⟩ := tagMultiA_facts latency numShift nbFrame
        (tickPayloadsA max bpf reads nbFrame).length k ((seqv + k) % U32) hl32 hlsh hn32
      rw [tagLoopA_length] at h2 ⊢
      refine ⟨F1, ?_, ?_, ?_⟩
      · intro hk0
        exact F2 hk0
      · intro hklast
        have hk0 : k ≠ 0 := by omega
        exact F3 hk0 hklast
      · intro hkpos hklt
        have hk0 : k ≠ 0 := by omega
        have hkl : k ≠ (tickPayloadsA max bpf reads nbFrame).length - 1 := by omega
        exact F4 hk0 hkl

/-- Witness for C2 on the spec's Example 3: a single 1500-byte codec frame
with a 663-byte payload cap yields three packets of 663, 663 and 174 bytes
tagged start+fragment, fragment-only and end+fragment, with consecutive
sequence bytes. -/
theorem C2_header_tagging_witness :
    ((1 : Nat) < 32 ∧ (1 : Nat) < 2 ^ 2 ∧ (1 : Nat) <<< 2 < 32) ∧
    (((a2dp_lhdc_encode_frames 663 2048 1 2
          (fun i => if i = 0 then some (List.replicate 1500 9) else none) 1 0 0).packets.length = 1 →
        ∀ p ∈ (a2dp_lhdc_encode_frames 663 2048 1 2
            (fun i => if i = 0 then some (List.replicate 1500 9) else none) 1 0 0).packets,
          p.layer_specific.testBit 7 = false
          ∧ p.layer_specific % 32 / 2 ^ 2 = 1)
      ∧ (2 ≤ (a2dp_lhdc_encode_frames 663 2048 1 2
            (fun i => if i = 0 then some (List.replicate 1500 9) else none) 1 0 0).packets.length →
        ∀ k p,
          (a2dp_lhdc_encode_frames 663 2048 1 2
            (fun i => if i = 0 then some (List.replicate 1500 9) else none) 1 0 0).packets[k]? = some p →
          p.layer_specific.testBit 7 = true
          ∧ (k = 0 → p.layer_specific.testBit 6 = true
              ∧ p.layer_specific.testBit 5 = false
              ∧ p.layer_specific % 32 / 2 ^ 2 = 1)
          ∧ (k = (a2dp_lhdc_encode_frames 663 2048 1 2
                (fun i => if i = 0 then some (List.replicate 1500 9) else none) 1 0 0).packets.length - 1 →
              p.layer_specific.testBit 5 = true)
          ∧ (0 < k →
              k < (a2dp_lhdc_encode_frames 663 2048 1 2
                (fun i => if i = 0 then some (List.replicate 1500 9) else none) 1 0 0).packets.length - 1 →
              p.layer_specific.testBit 6 = false ∧ p.layer_specific.testBit 5 = false))) ∧
    (((a2dp_lhdc_encode_frames 663 2048 1 2
        (fun i => if i = 0 then some (List.replicate 1500 9) else none)
        1 0 0).packets.map (fun p =>
          (p.payload.length, p.layer_specific.testBit 7, p.layer_specific.testBit 6,
            p.layer_specific.testBit 5, p.layer_specific >>> 8)))
      = [(663, true, true, false, 0), (663, true, false, false, 1),
         (174, true, false, true, 2)]) :=
  ⟨by decide,
    C2_header_tagging 663 2048 1 2
      (fun i => if i = 0 then some (List.replicate 1500 9) else none) 1 0 0
      (by decide) (by decide) (by decide),
    by decide⟩

theorem seqList_getElem : ∀ n s k,
    (seqList s n)[k]? = if k < n then some ((s + k) % 256) else none := by
  intro n
  induction n with
  | zero => intro s k; simp [seqList]
  | succ n ih =>
    intro s k
    cases k with
    | zero => simp [seqList]
    | succ k =>
      simp only [seqList, List.getElem?_cons_succ, ih (s + 1) k]
      have h1 : s + 1 + k = s + (k + 1) := by omega
      rw [h1]
      by_cases hk : k < n
      · rw [if_pos hk, if_pos (by omega)]
      · rw [if_neg hk, if_neg (by omega)]

theorem seqList_length : ∀ n s, (seqList s n).length = n := by
  intro n
  induction n with
  | zero => intro s; simp [seqList]
  | succ n ih => intro s; simp [seqList, ih]

theorem seqList_congr : ∀ n s t, s % 256 = t % 256 → seqList s n = seqList t n := by
  intro n
  induction n with
  | zero => intro s t _; simp [seqList]
  | succ n ih =>
    intro s t h
    simp only [seqList, h]
    rw [ih (s + 1) (t + 1) (by omega)]

theorem seqList_append : ∀ n m s, seqList s n ++ seqList (s + n) m = seqList s (n + m) := by
  intro n
  induction n with
  | zero => intro m s; simp [seqList]
  | succ n ih =>
    intro m s
    simp only [seqList, List.cons_append]
    have h1 : s + (n + 1) = s + 1 + n := by omega
    rw [h1, ih m (s + 1)]
    have h2 : n + 1 + m = n + m + 1 := by omega
    simp [seqList, h2]

theorem mod_u32_mod_256 (x : Nat) : x % U32 % 256 = x % 256 :=
  Nat.mod_mod_of_dvd x (by norm_num [U32])

theorem tagLoopA_map_seqField (latency numShift nbFrameOrg n ts : Nat)
    (hl : latency < 2 ^ 8) (hn : nbFrameOrg <<< numShift < 2 ^ 8) :
    ∀ pls i0 seqv,
      (tagLoopA latency numShift nbFrameOrg n ts i0 seqv pls).map seqFieldA
        = seqList seqv pls.length := by
  intro pls
  induction pls with
  | nil => intro i0 seqv; simp [tagLoopA, seqList]
  | cons pl pls ih =>
    intro i0 seqv
    simp only [tagLoopA, List.map_cons, List.length_cons, seqList]
    have hhd : seqFieldA ⟨pl, tagMultiA latency numShift nbFrameOrg n i0 (seqv % U32), ts % U32⟩
        = seqv % 256 := by
      show tagMultiA latency numShift nbFrameOrg n i0 (seqv % U32) >>> 8 = seqv % 256
      rw [tagMultiA_shiftRight latency numShift nbFrameOrg n i0 (seqv % U32) hl hn]
      exact mod_u32_mod_256 seqv
    rw [hhd, ih (i0 + 1) (seqv + 1)]

theorem packetsA_map_seqField (max bpf latency numShift : Nat)
    (reads : Nat → Option (List Nat)) (nbFrame ts seqv : Nat)
    (hl : latency < 2 ^ 8) (hn : nbFrame <<< numShift < 2 ^ 8) :
    (a2dp_lhdc_encode_frames max bpf latency numShift reads nbFrame ts seqv).packets.map seqFieldA
      = seqList seqv
          (a2dp_lhdc_encode_frames max bpf latency numShift reads nbFrame ts seqv).packets.length := by
  rw [packetsA_eq]
  by_cases hn1 : (tickPayloadsA max bpf reads nbFrame).length = 1
  · rw [if_pos hn1]
    rw [List.length_map, hn1]
    obtain ⟨pl, hpl⟩ := List.length_eq_one.mp hn1
    rw [hpl]
    simp only [List.map_cons, List.map_nil, seqList]
    show [tagSingleA latency numShift nbFrame (seqv % U32) >>> 8] = [seqv % 256] ++ []
    rw [tagSingleA_shiftRight latency numShift nbFrame (seqv % U32) hl hn]
    simp [mod_u32_mod_256 seqv]
  · rw [if_neg hn1]
    rw [tagLoopA_length]
    exact tagLoopA_map_seqField latency numShift nbFrame _ ts hl hn
      (tickPayloadsA max bpf reads nbFrame) 0 seqv

theorem sessionA_buf_seq (max bpf latency numShift : Nat)
    (reads : Nat → Option (List Nat)) (nbFrame ts seqv : Nat) :
    (a2dp_lhdc_encode_frames max bpf latency numShift reads nbFrame ts seqv).buf_seq
      = (seqv +
          (a2dp_lhdc_encode_frames max bpf latency numShift reads nbFrame ts seqv).packets.length)
          % U32 := by
  rw [packetsA_eq]
  by_cases hn1 : (tickPayloadsA max bpf reads nbFrame).length = 1
  · rw [if_pos hn1, List.length_map, hn1]
    show (seqv + (tickPayloadsA max bpf reads nbFrame).length) % U32 = (seqv + 1) % U32
    rw [hn1]
  · rw [if_neg hn1, tagLoopA_length]
    rfl

theorem sessionA_map_seqField (max bpf numShift : Nat) :
    ∀ tks ts seqv,
      (∀ tk ∈ tks, tk.latency < 2 ^ 8 ∧ tk.nbFrame <<< numShift < 2 ^ 8) →
      (sessionA max bpf numShift ts seqv tks).map seqFieldA
        = seqList seqv (sessionA max bpf numShift ts seqv tks).length := by
  intro tks
  induction tks with
  | nil => intro ts seqv _; simp [sessionA, seqList]
  | cons tk tks ih =>
    intro ts seqv hfit
    have hhd := hfit tk (by simp)
    have htl : ∀ tk ∈ tks, tk.latency < 2 ^ 8 ∧ tk.nbFrame <<< numShift < 2 ^ 8 := by
      intro x hx
      exact hfit x (by simp [hx])
    simp only [sessionA, List.map_append, List.length_append]
    rw [packetsA_map_seqField max bpf tk.latency numShift tk.reads tk.nbFrame ts seqv
      hhd.1 hhd.2]
    rw [ih _ _ htl]
    have hbs : (a2dp_lhdc_encode_frames max bpf tk.latency numShift tk.reads tk.nbFrame ts seqv).buf_seq % 256
        = (seqv +
            (a2dp_lhdc_encode_frames max bpf tk.latency numShift tk.reads tk.nbFrame ts seqv).packets.length)
          % 256 := by
      rw [sessionA_buf_seq]
      exact mod_u32_mod_256 _
    rw [seqList_congr _ _ _ hbs]
    exact seqList_append _ _ seqv

/-- C5: within a session, the sequence bytes of consecutively emitted
packets increase by exactly 1 modulo 256; each value is assigned when the
packet is closed and tagged (`buf_seq` post-increment).  The hypothesis
keeps the tick metadata (latency and shifted frame count) inside the low
header byte, as the wire format requires. -/
theorem C5_sequence_monotonic (max bpf numShift : Nat) (tks : List TickInA)
    (ts seqv : Nat)
    (hfit : ∀ tk ∈ tks, tk.latency < 2 ^ 8 ∧ tk.nbFrame <<< numShift < 2 ^ 8) :
    ∀ k p q, (sessionA max bpf numShift ts seqv tks)[k]? = some p →
      (sessionA max bpf numShift ts seqv tks)[k + 1]? = some q →
      seqFieldA q = (seqFieldA p + 1) % 256 := by
  intro k p q hp hq
  have hmap := sessionA_map_seqField max bpf numShift tks ts seqv hfit
  have hp' : (seqList seqv (sessionA max bpf numShift ts seqv tks).length)[k]?
      = some (seqFieldA p) := by
    rw [← hmap, List.getElem?_map, hp, Option.map_some']
  have hq' : (seqList seqv (sessionA max bpf numShift ts seqv tks).length)[k + 1]?
      = some (seqFieldA q) := by
    rw [← hmap, List.getElem?_map, hq, Option.map_some']
  rw [seqList_getElem] at hp' hq'
  by_cases hk : k < (sessionA max bpf numShift ts seqv tks).length
  · rw [if_pos hk] at hp'
    by_cases hk1 : k + 1 < (sessionA max bpf numShift ts seqv tks).length
    · rw [if_pos hk1] at hq'
      have e1 : seqFieldA p = (seqv + k) % 256 := (Option.some_inj.mp hp').symm
      have e2 : seqFieldA q = (seqv + (k + 1)) % 256 := (Option.some_inj.mp hq').symm
      rw [e1, e2]
      rw [show seqv + (k + 1) = seqv + k + 1 from by omega]
      rw [Nat.add_mod (seqv + k) 1]
    · rw [if_neg hk1] at hq'
      exact absurd hq' (by simp)
  · rw [if_neg hk] at hp'
    exact absurd hp' (by simp)

/-- Witness for C5: a two-tick session (one fragmented into two packets,
one single) emits sequence bytes 5, 6, 7. -/
theorem C5_sequence_monotonic_witness :
    (∀ tk ∈ [TickInA.mk 1 0 (fun _ => some [1, 2, 3]), TickInA.mk 1 0 (fun _ => some [4, 5])],
        tk.latency < 2 ^ 8 ∧ tk.nbFrame <<< 0 < 2 ^ 8) ∧
      (∀ k p q,
        (sessionA 2 2048 0 7 5
          [TickInA.mk 1 0 (fun _ => some [1, 2, 3]), TickInA.mk 1 0 (fun _ => some [4, 5])])[k]?
            = some p →
        (sessionA 2 2048 0 7 5
          [TickInA.mk 1 0 (fun _ => some [1, 2, 3]), TickInA.mk 1 0 (fun _ => some [4, 5])])[k + 1]?
            = some q →
        seqFieldA q = (seqFieldA p + 1) % 256) ∧
      ((sessionA 2 2048 0 7 5
          [TickInA.mk 1 0 (fun _ => some [1, 2, 3]), TickInA.mk 1 0 (fun _ => some [4, 5])]).map
            seqFieldA = [5, 6, 7]) :=
  ⟨by decide,
    C5_sequence_monotonic 2 2048 0
      [TickInA.mk 1 0 (fun _ => some [1, 2, 3]), TickInA.mk 1 0 (fun _ => some [4, 5])]
      7 5 (by decide),
    by decide⟩

theorem frameLoopA_fail (max bpf : Nat) (reads : Nat → Option (List Nat)) :
    ∀ k n idx st, k < n → reads (idx + k) = none → (∀ i, i < k → (reads (idx + i)).isSome) →
      (frameLoopA max bpf reads n idx st).consumed = k
      ∧ (frameLoopA max bpf reads n idx st).counterAdd = (n - k) * bpf := by
  intro k
  induction k with
  | zero =>
    intro n idx st hk hfail _
    match n, hk with
    | m + 1, _ =>
      have hf : reads idx = none := by simpa using hfail
      constructor <;> simp [frameLoopA, hf]
  | succ j ih =>
    intro n idx st hk hfail hok
    match n, hk with
    | m + 1, _ =>
      have h0 : (reads idx).isSome := by simpa using hok 0 (by omega)
      obtain ⟨chunk, hc⟩ := Option.isSome_iff_exists.mp h0
      have hrec := ih m (idx + 1) (placeChunk max (chunk.length + 1) chunk st)
        (by omega)
        (by rw [show idx + 1 + j = idx + (j + 1) from by omega]; exact hfail)
        (by
          intro i hi
          rw [show idx + 1 + i = idx + (i + 1) from by omega]
          exact hok (i + 1) (by omega))
      have heq : frameLoopA max bpf reads (m + 1) idx st
          = ⟨(frameLoopA max bpf reads m (idx + 1) (placeChunk max (chunk.length + 1) chunk st)).asm,
             (frameLoopA max bpf reads m (idx + 1) (placeChunk max (chunk.length + 1) chunk st)).counterAdd,
             (frameLoopA max bpf reads m (idx + 1) (placeChunk max (chunk.length + 1) chunk st)).consumed + 1⟩ := by
        simp [frameLoopA, hc]
      rw [heq]
      refine ⟨by simp [hrec.1], by simp [hrec.2]⟩

/-- C6: a failed PCM read during a tick returns the PCM byte budget of every
frame not produced to the pacer counter and aborts the remaining frame
production; a zero-byte return on the first read leaves the tick with zero
packets. -/
theorem C6_underflow_restores_budget (max bpf latency numShift : Nat)
    (reads : Nat → Option (List Nat)) (nbFrame ts seqv k : Nat)
    (hk : k < nbFrame) (hfail : reads k = none)
    (hok : ∀ i, i < k → (reads i).isSome) :
    (a2dp_lhdc_encode_frames max bpf latency numShift reads nbFrame ts seqv).consumed = k
    ∧ (a2dp_lhdc_encode_frames max bpf latency numShift reads nbFrame ts seqv).counterAdd
        = (nbFrame - k) * bpf
    ∧ (k = 0 →
        (a2dp_lhdc_encode_frames max bpf latency numShift reads nbFrame ts seqv).packets = []) := by
  have hfl := frameLoopA_fail max bpf reads k nbFrame 0 ⟨[], []⟩ hk
    (by simpa using hfail) (by simpa using hok)
  refine ⟨hfl.1, hfl.2, ?_⟩
  intro hk0
  subst hk0
  match nbFrame, hk with
  | m + 1, _ =>
    rw [packetsA_eq]
    have hloop : frameLoopA max bpf reads (m + 1) 0 ⟨[], []⟩
        = ⟨⟨[], []⟩, (m + 1) * bpf, 0⟩ := by
      simp [frameLoopA, hfail]
    have hpl : tickPayloadsA max bpf reads (m + 1) = [] := by
      unfold tickPayloadsA
      rw [hloop]
      simp
    rw [hpl]
    simp [tagLoopA]

/-- Witness for C6: three requested frames, underflow at the second read. -/
theorem C6_underflow_restores_budget_witness :
    (1 < 3 ∧ (fun i => if i = 0 then some [9] else none) 1 = none
      ∧ ∀ i, i < 1 → ((fun i => if i = 0 then some [9] else none) i).isSome) ∧
    ((a2dp_lhdc_encode_frames 4 2048 0 0
        (fun i => if i = 0 then some [9] else none) 3 0 0).consumed = 1
      ∧ (a2dp_lhdc_encode_frames 4 2048 0 0
          (fun i => if i = 0 then some [9] else none) 3 0 0).counterAdd = (3 - 1) * 2048
      ∧ (1 = 0 → (a2dp_lhdc_encode_frames 4 2048 0 0
          (fun i => if i = 0 then some [9] else none) 3 0 0).packets = [])) :=
  ⟨⟨by decide, by decide, by decide⟩,
    C6_underflow_restores_budget 4 2048 0 0
      (fun i => if i = 0 then some [9] else none) 3 0 0 1
      (by decide) (by decide) (by decide)⟩

theorem tagLoopA_timestamp (latency numShift nbFrameOrg n ts : Nat) :
    ∀ pls i0 seqv, ∀ p ∈ tagLoopA latency numShift nbFrameOrg n ts i0 seqv pls,
      p.timestamp = ts % U32 := by
  intro pls
  induction pls with
  | nil => intro i0 seqv p hp; simp [tagLoopA] at hp
  | cons pl pls ih =>
    intro i0 seqv p hp
    simp only [tagLoopA, List.mem_cons] at hp
    rcases hp with hp | hp
    · rw [hp]
    · exact ih (i0 + 1) (seqv + 1) p hp

/-- C8 amended: every packet of a tick carries the running session
timestamp as it was before the tick (reduced to `uint32_t`), and the
session timestamp then advances by `nb_frame_org * LHDCBT_ENC_BLOCK_SIZE` —
the tick's requested frame count, not the count of frames actually
produced. -/
theorem C8_timestamp_amended (max bpf latency numShift : Nat)
    (reads : Nat → Option (List Nat)) (nbFrame ts seqv : Nat) :
    (∀ p ∈ (a2dp_lhdc_encode_frames max bpf latency numShift reads nbFrame ts seqv).packets,
        p.timestamp = ts % U32)
    ∧ (a2dp_lhdc_encode_frames max bpf latency numShift reads nbFrame ts seqv).timestamp
        = (ts + nbFrame * LHDCBT_ENC_BLOCK_SIZE) % U32 := by
  constructor
  · intro p hp
    rw [packetsA_eq] at hp
    by_cases hn1 : (tickPayloadsA max bpf reads nbFrame).length = 1
    · rw [if_pos hn1] at hp
      simp only [List.mem_map] at hp
      obtain ⟨pl, _, rfl⟩ := hp
      rfl
    · rw [if_neg hn1] at hp
      exact tagLoopA_timestamp latency numShift nbFrame _ ts _ 0 seqv p hp
  · rfl

/-- Witness for C8 amended. -/
theorem C8_timestamp_amended_witness :
    (∀ p ∈ (a2dp_lhdc_encode_frames 4 2048 0 0 (fun _ => some [1, 2, 3]) 2 40 9).packets,
        p.timestamp = 40 % U32)
    ∧ (a2dp_lhdc_encode_frames 4 2048 0 0 (fun _ => some [1, 2, 3]) 2 40 9).timestamp
        = (40 + 2 * LHDCBT_ENC_BLOCK_SIZE) % U32 :=
  C8_timestamp_amended 4 2048 0 0 (fun _ => some [1, 2, 3]) 2 40 9

/-- C8 as stated is false on the code: on an underflow tick the session
timestamp still advances by the requested frame count. Two frames are
requested, the first read underflows, zero frames are produced, yet the
timestamp advances by `2 * 512 = 1024`, not `0 * 512`. -/
theorem C8_timestamp_counterexample :
    (a2dp_lhdc_encode_frames 5 4 0 0 (fun _ => none) 2 0 0).consumed = 0
    ∧ ¬ ((a2dp_lhdc_encode_frames 5 4 0 0 (fun _ => none) 2 0 0).timestamp
          = (0 + (a2dp_lhdc_encode_frames 5 4 0 0 (fun _ => none) 2 0 0).consumed
              * LHDCBT_ENC_BLOCK_SIZE) % U32) := by
  constructor
  · decide
  · decide

/-- C10 is violated by the code: the tick below closes 17 packets, so the
17th store `p_btBufs[16]` is an out-of-bounds write into the 16-element
array `BT_HDR* p_btBufs[16]`.  A single frame whose encoded output is 17
times the payload cap suffices. -/
theorem C10_packet_array_overflow :
    (a2dp_lhdc_encode_frames 1 4 0 0
        (fun i => if i = 0 then some (List.replicate 17 1) else none) 1 0 0).packets.length
      = 17 := by
  decide

theorem sanity_v2_example :
    ((a2dp_lhdc_encode_frames_v2 true 2048
        (fun i => some (EncEvt.ok [i, i] 1)) (fun _ => true) 3 0).emitted.map
          (fun p => p.payload)) = [[0, 0], [1, 1], [2, 2]] := by
  decide

/-- One successful inner pass with non-empty codec output: the do-while
exits immediately after appending the output and consuming the frame. -/
theorem innerB_ok_step (bpf : Nat) (ev : Nat → Option EncEvt) (n : Nat) (s : StB)
    (wv : List Nat) (frv : Nat) (hev : ev s.readIdx = some (EncEvt.ok wv frv))
    (hw : wv ≠ []) :
    innerB true bpf ev (n + 1) s
      = { s with
          payload := s.payload ++ wv
          lsFrames := s.lsFrames + frv
          nbFrame := n
          readIdx := s.readIdx + 1 } := by
  have hcond : ¬(wv.length = 0 ∧ n ≠ 0) := by
    intro hc
    exact hw (List.eq_nil_of_length_eq_zero hc.1)
  simp only [innerB, hev]
  rw [if_neg (show ¬ (true = false) from by simp)]
  rw [if_neg hcond]

theorem innerB_ok_fuel (bpf : Nat) (ev : Nat → Option EncEvt) (fuel n : Nat)
    (hfuel : fuel = n + 1) (s : StB) (wv : List Nat) (frv : Nat)
    (hev : ev s.readIdx = some (EncEvt.ok wv frv)) (hw : wv ≠ []) :
    innerB true bpf ev fuel s
      = { s with
          payload := s.payload ++ wv
          lsFrames := s.lsFrames + frv
          nbFrame := n
          readIdx := s.readIdx + 1 } := by
  subst hfuel
  exact innerB_ok_step bpf ev n s wv frv hev hw

/-- An invalid handle or an encode error inside the inner loop: increment
the dropped statistic, free the packet and leave through the drop path. -/
theorem innerB_drop_step (hv : Bool) (bpf : Nat) (ev : Nat → Option EncEvt)
    (n : Nat) (s : StB) (e : EncEvt) (hev : ev s.readIdx = some e)
    (herr : hv = false ∨ e = EncEvt.err) :
    innerB hv bpf ev (n + 1) s
      = { s with
          droppedAdd := s.droppedAdd + 1
          readIdx := s.readIdx + 1
          dropped := true } := by
  rcases herr with h | h
  · subst h
    simp [innerB, hev]
  · subst h
    by_cases hhv : hv = false
    · simp [innerB, hev, hhv]
    · simp [innerB, hev, hhv]

theorem outerB_emit_step (bpf frameSize : Nat) (ev : Nat → Option EncEvt)
    (accept : Nat → Bool) (s : StB) (m : Nat)
    (hm : s.nbFrame = m + 1) (h2 : s.dropped = false) (wv : List Nat) (frv : Nat)
    (hev : ev s.readIdx = some (EncEvt.ok wv frv)) (hw : wv ≠ []) (f : Nat) :
    outerB true bpf frameSize ev accept (f + 1) s
      = (if accept s.pktIdx
         then outerB true bpf frameSize ev accept f (emitStep frameSize wv frv m s)
         else emitStep frameSize wv frv m s) := by
  conv_lhs => rw [outerB]
  simp only []
  rw [if_neg (show ¬ s.nbFrame = 0 from by simp [hm])]
  rw [innerB_ok_fuel bpf ev s.nbFrame m hm
    ({ s with payload := [], lsFrames := 0 }) wv frv hev hw]
  have hd : ({ ({ s with payload := [], lsFrames := 0 } : StB) with
      payload := ({ s with payload := [], lsFrames := 0 } : StB).payload ++ wv
      lsFrames := ({ s with payload := [], lsFrames := 0 } : StB).lsFrames + frv
      nbFrame := m
      readIdx := ({ s with payload := [], lsFrames := 0 } : StB).readIdx + 1 } : StB).dropped
      = false := h2
  rw [hd, if_neg (show ¬ (false = true) from by simp)]
  have hlen : (({ ({ s with payload := [], lsFrames := 0 } : StB) with
      payload := ({ s with payload := [], lsFrames := 0 } : StB).payload ++ wv
      lsFrames := ({ s with payload := [], lsFrames := 0 } : StB).lsFrames + frv
      nbFrame := m
      readIdx := ({ s with payload := [], lsFrames := 0 } : StB).readIdx + 1 } : StB).payload).length
      ≠ 0 := by
    intro hc
    exact hw (List.eq_nil_of_length_eq_zero (by simpa using hc))
  rw [if_pos hlen]
  simp only [emitStep, h2]

theorem innerB_drop_fuel (hv : Bool) (bpf : Nat) (ev : Nat → Option EncEvt)
    (fuel n : Nat) (hfuel : fuel = n + 1) (s : StB) (e : EncEvt)
    (hev : ev s.readIdx = some e) (herr : hv = false ∨ e = EncEvt.err) :
    innerB hv bpf ev fuel s
      = { s with
          droppedAdd := s.droppedAdd + 1
          readIdx := s.readIdx + 1
          dropped := true } := by
  subst hfuel
  exact innerB_drop_step hv bpf ev n s e hev herr

/-- One outer-loop pass that hits an invalid handle or an encode error:
the open packet is freed without being emitted, the dropped statistic is
incremented and the function returns. -/
theorem outerB_drop_step (hv : Bool) (bpf frameSize : Nat) (ev : Nat → Option EncEvt)
    (accept : Nat → Bool) (s : StB) (m : Nat)
    (hm : s.nbFrame = m + 1) (e : EncEvt)
    (hev : ev s.readIdx = some e) (herr : hv = false ∨ e = EncEvt.err) (f : Nat) :
    outerB hv bpf frameSize ev accept (f + 1) s
      = { s with
          payload := []
          lsFrames := 0
          droppedAdd := s.droppedAdd + 1
          readIdx := s.readIdx + 1
          dropped := true } := by
  conv_lhs => rw [outerB]
  simp only []
  rw [if_neg (show ¬ s.nbFrame = 0 from by simp [hm])]
  rw [innerB_drop_fuel hv bpf ev s.nbFrame m hm
    ({ s with payload := [], lsFrames := 0 }) e hev herr]
  rw [if_pos (show (({ ({ s with payload := [], lsFrames := 0 } : StB) with
      droppedAdd := ({ s with payload := [], lsFrames := 0 } : StB).droppedAdd + 1
      readIdx := ({ s with payload := [], lsFrames := 0 } : StB).readIdx + 1
      dropped := true } : StB)).dropped = true from rfl)]

theorem outerB_backpressure (bpf frameSize : Nat) (ev : Nat → Option EncEvt)
    (accept : Nat → Bool) (w : Nat → List Nat) (fr : Nat → Nat) (k : Nat)
    (hev : ∀ i, ev i = some (EncEvt.ok (w i) (fr i)))
    (hw : ∀ i, w i ≠ [])
    (hacc : ∀ j, j < k → accept j = true) (hk : accept k = false) :
    ∀ f s, s.nbFrame ≤ f → s.dropped = false → s.pktIdx ≤ k → s.readIdx = s.pktIdx →
      k < s.pktIdx + s.nbFrame →
      (outerB true bpf frameSize ev accept f s).emitted.length
          = s.emitted.length + (k + 1 - s.pktIdx)
      ∧ (outerB true bpf frameSize ev accept f s).droppedAdd = s.droppedAdd
      ∧ (outerB true bpf frameSize ev accept f s).counterAdd = s.counterAdd
      ∧ (outerB true bpf frameSize ev accept f s).readIdx = k + 1 := by
  intro f
  induction f with
  | zero =>
    intro s h1 _ h3 _ h5
    omega
  | succ f ih =>
    intro s h1 h2 h3 h4 h5
    obtain ⟨m, hm⟩ : ∃ m, s.nbFrame = m + 1 := ⟨s.nbFrame - 1, by omega⟩
    rw [outerB_emit_step bpf frameSize ev accept s m hm h2 (w s.readIdx) (fr s.readIdx)
      (hev s.readIdx) (hw s.readIdx) f]
    by_cases hpk : s.pktIdx = k
    · rw [if_neg (by rw [hpk, hk]; simp)]
      refine ⟨?_, rfl, rfl, ?_⟩
      · simp only [emitStep, List.length_append, List.length_singleton]
        omega
      · simp only [emitStep]
        omega
    · have hlt : s.pktIdx < k := by omega
      rw [if_pos (by rw [hacc s.pktIdx hlt])]
      have hih := ih (emitStep frameSize (w s.readIdx) (fr s.readIdx) m s)
        (by simp only [emitStep]; omega)
        (by simp only [emitStep]; exact h2)
        (by simp only [emitStep]; omega)
        (by simp only [emitStep]; omega)
        (by simp only [emitStep]; omega)
      obtain ⟨e1, e2, e3, e4⟩ := hih
      rw [e1, e2, e3, e4]
      simp only [emitStep, List.length_append, List.length_singleton]
      refine ⟨by omega, by trivial, by trivial, by trivial⟩

/-- C7: when the enqueue callback reports backpressure on the `k`-th packet
(all earlier ones accepted, every read succeeding with non-empty codec
output), the tick stops immediately: exactly `k + 1` packets were handed to
the sink, no further PCM is read, nothing is marked dropped, and the
feeding counter receives no restore — the remaining PCM budget of the tick
is abandoned, not retried. -/
theorem C7_sink_backpressure (bpf : Nat) (ev : Nat → Option EncEvt)
    (accept : Nat → Bool) (w : Nat → List Nat) (fr : Nat → Nat)
    (nbFrame ts k : Nat)
    (hev : ∀ i, ev i = some (EncEvt.ok (w i) (fr i))) (hw : ∀ i, w i ≠ [])
    (hacc : ∀ j, j < k → accept j = true) (hk : accept k = false)
    (hkn : k < nbFrame) :
    (a2dp_lhdc_encode_frames_v2 true bpf ev accept nbFrame ts).emitted.length = k + 1
    ∧ (a2dp_lhdc_encode_frames_v2 true bpf ev accept nbFrame ts).droppedAdd = 0
    ∧ (a2dp_lhdc_encode_frames_v2 true bpf ev accept nbFrame ts).counterAdd = 0
    ∧ (a2dp_lhdc_encode_frames_v2 true bpf ev accept nbFrame ts).readIdx = k + 1 := by
  have h := outerB_backpressure bpf 512 ev accept w fr k hev hw hacc hk nbFrame
    ⟨[], 0, nbFrame, nbFrame, 0, 0, 0, ts, [], 0, false⟩
    (Nat.le_refl nbFrame) rfl (Nat.zero_le k) rfl (by simpa using hkn)
  obtain ⟨e1, e2, e3, e4⟩ := h
  exact ⟨by simpa using e1, by simpa using e2, by simpa using e3, by simpa using e4⟩

/-- Witness for C7: four frames requested, sink rejects the second packet:
two packets handed to the sink, two reads performed, nothing dropped, no
counter restore. -/
theorem C7_sink_backpressure_witness :
    ((∀ j, j < 1 → (j == 0) = true) ∧ (((1 : Nat) == 0) = false) ∧ 1 < 4) ∧
    ((a2dp_lhdc_encode_frames_v2 true 2048 (fun i => some (EncEvt.ok [7] 1))
        (fun j => j == 0) 4 0).emitted.length = 1 + 1
      ∧ (a2dp_lhdc_encode_frames_v2 true 2048 (fun i => some (EncEvt.ok [7] 1))
          (fun j => j == 0) 4 0).droppedAdd = 0
      ∧ (a2dp_lhdc_encode_frames_v2 true 2048 (fun i => some (EncEvt.ok [7] 1))
          (fun j => j == 0) 4 0).counterAdd = 0
      ∧ (a2dp_lhdc_encode_frames_v2 true 2048 (fun i => some (EncEvt.ok [7] 1))
          (fun j => j == 0) 4 0).readIdx = 1 + 1) :=
  ⟨⟨by decide, by decide, by decide⟩,
    C7_sink_backpressure 2048 (fun i => some (EncEvt.ok [7] 1)) (fun j => j == 0)
      (fun _ => [7]) (fun _ => 1) 4 0 1
      (fun i => rfl) (fun i => List.cons_ne_nil 7 []) (by decide) (by decide) (by decide)⟩

theorem outerB_codec_error (hv : Bool) (bpf frameSize : Nat) (ev : Nat → Option EncEvt)
    (accept : Nat → Bool) (w : Nat → List Nat) (fr : Nat → Nat) (j : Nat)
    (hev : ∀ i, i < j → ev i = some (EncEvt.ok (w i) (fr i)))
    (hw : ∀ i, i < j → w i ≠ [])
    (hacc : ∀ i, i < j → accept i = true)
    (hj : ∃ e, ev j = some e ∧ (hv = false ∨ e = EncEvt.err))
    (hj0 : hv = false → j = 0) :
    ∀ f s, s.nbFrame ≤ f → s.dropped = false → s.readIdx = s.pktIdx → s.readIdx ≤ j →
      j < s.readIdx + s.nbFrame →
      (outerB hv bpf frameSize ev accept f s).emitted.length
          = s.emitted.length + (j - s.readIdx)
      ∧ (outerB hv bpf frameSize ev accept f s).droppedAdd = s.droppedAdd + 1
      ∧ (outerB hv bpf frameSize ev accept f s).counterAdd = s.counterAdd
      ∧ (outerB hv bpf frameSize ev accept f s).readIdx = j + 1 := by
  intro f
  induction f with
  | zero =>
    intro s h1 _ _ h4 h5
    omega
  | succ f ih =>
    intro s h1 h2 h3 h4 h5
    obtain ⟨m, hm⟩ : ∃ m, s.nbFrame = m + 1 := ⟨s.nbFrame - 1, by omega⟩
    by_cases hrj : s.readIdx = j
    · obtain ⟨e, hevj, herr⟩ := hj
      rw [outerB_drop_step hv bpf frameSize ev accept s m hm e
        (by rw [hrj]; exact hevj) herr f]
      refine ⟨by simp [hrj], rfl, rfl, by simp only []; omega⟩
    · have hlt : s.readIdx < j := by omega
      have hhv : hv = true := by
        cases hv with
        | false => exact absurd (hj0 rfl) (by omega)
        | true => rfl
      subst hhv
      rw [outerB_emit_step bpf frameSize ev accept s m hm h2 (w s.readIdx) (fr s.readIdx)
        (hev s.readIdx hlt) (hw s.readIdx hlt) f]
      rw [if_pos (by rw [← h3]; exact hacc s.readIdx hlt)]
      have hih := ih (emitStep frameSize (w s.readIdx) (fr s.readIdx) m s)
        (by simp only [emitStep]; omega)
        (by simp only [emitStep]; exact h2)
        (by simp only [emitStep]; omega)
        (by simp only [emitStep]; omega)
        (by simp only [emitStep]; omega)
      obtain ⟨e1, e2, e3, e4⟩ := hih
      rw [e1, e2, e3, e4]
      simp only [emitStep, List.length_append, List.length_singleton]
      refine ⟨by omega, by trivial, by trivial, by trivial⟩

/-- C9: when the encode call reports an error at frame `j` (or the codec
handle is absent, in which case the first frame fails), the in-progress
packet is freed and not emitted — only the `j` packets completed before it
were handed to the sink — the dropped-packet statistic is incremented once,
the tick halts (no PCM read after read `j`), and no budget is restored. -/
theorem C9_codec_failure (hv : Bool) (bpf : Nat) (ev : Nat → Option EncEvt)
    (accept : Nat → Bool) (w : Nat → List Nat) (fr : Nat → Nat)
    (nbFrame ts j : Nat)
    (hev : ∀ i, i < j → ev i = some (EncEvt.ok (w i) (fr i)))
    (hw : ∀ i, i < j → w i ≠ [])
    (hacc : ∀ i, i < j → accept i = true)
    (hj : ∃ e, ev j = some e ∧ (hv = false ∨ e = EncEvt.err))
    (hj0 : hv = false → j = 0)
    (hjn : j < nbFrame) :
    (a2dp_lhdc_encode_frames_v2 hv bpf ev accept nbFrame ts).emitted.length = j
    ∧ (a2dp_lhdc_encode_frames_v2 hv bpf ev accept nbFrame ts).droppedAdd = 1
    ∧ (a2dp_lhdc_encode_frames_v2 hv bpf ev accept nbFrame ts).counterAdd = 0
    ∧ (a2dp_lhdc_encode_frames_v2 hv bpf ev accept nbFrame ts).readIdx = j + 1 := by
  have h := outerB_codec_error hv bpf 512 ev accept w fr j hev hw hacc hj hj0 nbFrame
    ⟨[], 0, nbFrame, nbFrame, 0, 0, 0, ts, [], 0, false⟩
    (Nat.le_refl nbFrame) rfl rfl (Nat.zero_le j) (by simpa using hjn)
  obtain ⟨e1, e2, e3, e4⟩ := h
  exact ⟨by simpa using e1, by simpa using e2, by simpa using e3, by simpa using e4⟩

/-- Witness for C9: four frames requested, the codec fails on the third:
two packets emitted, one drop recorded, three reads performed. -/
theorem C9_codec_failure_witness :
    ((∀ i, i < 2 → (if i < 2 then some (EncEvt.ok [5] 1) else some EncEvt.err)
        = some (EncEvt.ok [5] 1))
      ∧ (∀ i : Nat, i < 2 → (true : Bool) = true)
      ∧ (∃ e, (if (2 : Nat) < 2 then some (EncEvt.ok [5] 1) else some EncEvt.err) = some e
          ∧ (true = false ∨ e = EncEvt.err))
      ∧ 2 < 4) ∧
    ((a2dp_lhdc_encode_frames_v2 true 2048
        (fun i => if i < 2 then some (EncEvt.ok [5] 1) else some EncEvt.err)
        (fun _ => true) 4 0).emitted.length = 2
      ∧ (a2dp_lhdc_encode_frames_v2 true 2048
          (fun i => if i < 2 then some (EncEvt.ok [5] 1) else some EncEvt.err)
          (fun _ => true) 4 0).droppedAdd = 1
      ∧ (a2dp_lhdc_encode_frames_v2 true 2048
          (fun i => if i < 2 then some (EncEvt.ok [5] 1) else some EncEvt.err)
          (fun _ => true) 4 0).counterAdd = 0
      ∧ (a2dp_lhdc_encode_frames_v2 true 2048
          (fun i => if i < 2 then some (EncEvt.ok [5] 1) else some EncEvt.err)
          (fun _ => true) 4 0).readIdx = 2 + 1) :=
  ⟨⟨by decide, by decide, ⟨EncEvt.err, by decide, Or.inr rfl⟩, by decide⟩,
    C9_codec_failure true 2048
      (fun i => if i < 2 then some (EncEvt.ok [5] 1) else some EncEvt.err)
      (fun _ => true) (fun _ => [5]) (fun _ => 1) 4 0 2
      (fun i hi => by simp [hi]) (fun i _ => List.cons_ne_nil 5 [])
      (fun i _ => rfl)
      ⟨EncEvt.err, by decide, Or.inr rfl⟩
      (fun hfalse => by simp at hfalse) (by decide)⟩
